import Mathlib

/-!
Verification development for the member search-index synchronization engine
(`MemberSyncService`): the attribute-flattening algorithm (`prefixData`,
`attributeTypeToOpenSearchPrefix` — embedded here as `attributeTypeToOpenSearchPfx`),
the incremental per-member sync with bounded retry (`syncMember`), the full
tenant resync loop (`syncTenantMembers`), and the orphan-cleanup pass
(`cleanupMemberIndex`).  External collaborators (`MemberRepository`,
`OpenSearchService`) are not part of the sources; their operations are
modelled from the spec's interface descriptions (§4.4, §4.5) and marked as
such in their doc comments.
-/

/-- A JavaScript/JSON value as it appears in a member's free-form attribute
bag.  `undef` is JavaScript `undefined` (the result of reading an absent
property); `nan` is the number NaN. -/
inductive JsValue where
  | undef : JsValue
  | null : JsValue
  | bool (b : Bool) : JsValue
  | num (q : ℚ) : JsValue
  | nan : JsValue
  | str (s : String) : JsValue
  | arr (xs : List JsValue) : JsValue
  | obj (fields : List (String × JsValue)) : JsValue

/-- The JavaScript test `(v as number) % 1 === 0` used by the source to pick
`int` over `float` for NUMBER attributes.  `%` applies ToNumber coercion:
`undefined` and NaN coerce to NaN (test false); `null` coerces to 0 and
booleans to 0/1 (test true); a finite number passes iff it is an integer
(denominator 1); the empty string coerces to 0 and a pure digit string to an
integer.  Other string shapes and object/array ToPrimitive coercions are not
modelled and conservatively yield false; no theorem below depends on them. -/
def jsMod1IsZero : JsValue → Bool
  | JsValue.num q => decide (q.den = 1)
  | JsValue.null => true
  | JsValue.bool _ => true
  | JsValue.str s => s.isEmpty || s.all Char.isDigit
  | _ => false

mutual
/-- `JSON.stringify`, used by the source for SPECIAL attributes.  String
escaping and decimal rendering of non-integer numbers are simplified; the
dropping of `undefined`-valued object keys is not modelled (they render as
null).  No theorem depends on the rendered text, only on the fact that a
SPECIAL attribute becomes one serialized string. -/
def jsonStringify : JsValue → String
  | JsValue.undef => "null"
  | JsValue.null => "null"
  | JsValue.bool b => if b then "true" else "false"
  | JsValue.num q => if q.den = 1 then toString q.num else toString q
  | JsValue.nan => "null"
  | JsValue.str s => "\"" ++ s ++ "\""
  | JsValue.arr xs => "[" ++ jsonStringifyList xs ++ "]"
  | JsValue.obj kvs => "\x7b" ++ jsonStringifyFields kvs ++ "\x7d"

/-- Serialize a list of array elements, comma separated. -/
def jsonStringifyList : List JsValue → String
  | [] => ""
  | [x] => jsonStringify x
  | x :: y :: xs => jsonStringify x ++ "," ++ jsonStringifyList (y :: xs)

/-- Serialize a list of object fields, comma separated. -/
def jsonStringifyFields : List (String × JsValue) → String
  | [] => ""
  | [(k, v)] => "\"" ++ k ++ "\":" ++ jsonStringify v
  | (k, v) :: f :: kvs => "\"" ++ k ++ "\":" ++ jsonStringify v ++ "," ++ jsonStringifyFields (f :: kvs)
end

/-- Read a sub-key of an attribute bag: JavaScript property access,
`undefined` when the key is absent. -/
def bagGet (bag : List (String × JsValue)) (k : String) : JsValue :=
  (bag.lookup k).getD JsValue.undef

/-- `MemberAttributeType` from `@crowd/types`.  At runtime it is a string
enum, so values outside the declared set can reach the switch in
`attributeTypeToOpenSearchPrefix`; `UNKNOWN s` represents such a value. -/
inductive MemberAttributeType where
  | BOOLEAN
  | NUMBER
  | EMAIL
  | STRING
  | URL
  | DATE
  | MULTI_SELECT
  | SPECIAL
  | UNKNOWN (s : String)
deriving DecidableEq

/-- `IMemberAttribute`: one attribute definition of the tenant's schema. -/
structure IMemberAttribute where
  name : String
  type : MemberAttributeType

/-- One entry of `IDbMemberSyncData.identities`. -/
structure MemberIdentityData where
  platform : String
  username : String

/-- One entry of `IDbMemberSyncData.organizations`. -/
structure OrgData where
  id : String
  logo : String
  displayName : String

/-- One entry of `IDbMemberSyncData.tags`. -/
structure TagData where
  id : String
  name : String

/-- `IDbMemberSyncData`: one (member, segment) snapshot row as returned by
`MemberRepository.getMemberData`.  The attribute bag maps each attribute
name to an object of sub-keys (the shape `prefixData` iterates with
`Object.keys`). -/
structure IDbMemberSyncData where
  id : String
  tenantId : String
  displayName : String
  attributes : List (String × List (String × JsValue))
  emails : Option (List String)
  score : Int
  lastEnriched : String
  joinedAt : String
  totalReach : Int
  numberOfOpenSourceContributions : Int
  identities : List MemberIdentityData
  toMergeIds : List String
  noMergeIds : List String
  segmentId : String
  organizations : List OrgData
  tags : List TagData
  activeOn : List String
  activityCount : Int
  activityTypes : List String
  activeDaysCount : Int
  lastActive : String
  averageSentiment : ℚ

/-- Flattened identity entry (`string_platform`, `string_username`). -/
structure IdentityEntry where
  string_platform : String
  string_username : String

/-- Flattened organization entry of a segment. -/
structure OrgEntry where
  uuid_id : String
  string_logo : String
  string_displayName : String

/-- Flattened tag entry of a segment. -/
structure TagEntry where
  uuid_id : String
  string_name : String

/-- One entry of the `obj_arr_segments` array of the flattened document. -/
structure SegmentEntry where
  uuid_segmentId : String
  obj_arr_organizations : List OrgEntry
  obj_arr_tags : List TagEntry
  string_arr_activeOn : List String
  int_activityCount : Int
  string_arr_activityTypes : List String
  int_activeDaysCount : Int
  date_lastActive : String
  float_averageSentiment : ℚ

/-- The flattened member document `prefixData` writes to the index. -/
structure MemberDoc where
  uuid_memberId : String
  uuid_tenantId : String
  string_displayName : String
  obj_attributes : List (String × JsValue)
  string_arr_emails : List String
  int_score : Int
  date_lastEnriched : String
  date_joinedAt : String
  int_totalReach : Int
  int_numberOfOpenSourceContributions : Int
  obj_arr_identities : List IdentityEntry
  uuid_arr_toMergeIds : List String
  uuid_arr_noMergeIds : List String
  obj_arr_segments : List SegmentEntry

/-- `MemberSyncService.attributeTypeToOpenSearchPrefix` (renamed to `Pfx`):
maps an attribute type, together with the bag's `default` sub-key value, to
the OpenSearch field-name prefix; an unrecognized type hits the switch's
default case and throws. -/
def attributeTypeToOpenSearchPfx (defValue : JsValue) (type : MemberAttributeType) :
    Except String String :=
  match type with
  | MemberAttributeType.BOOLEAN => Except.ok "bool"
  | MemberAttributeType.NUMBER =>
      if jsMod1IsZero defValue then Except.ok "int" else Except.ok "float"
  | MemberAttributeType.EMAIL => Except.ok "string"
  | MemberAttributeType.STRING => Except.ok "string"
  | MemberAttributeType.URL => Except.ok "string"
  | MemberAttributeType.DATE => Except.ok "date"
  | MemberAttributeType.MULTI_SELECT => Except.ok "string_arr"
  | MemberAttributeType.SPECIAL => Except.ok "string"
  | MemberAttributeType.UNKNOWN s =>
      Except.error ("Could not map attribute type: " ++ s ++ " to OpenSearch type!")

/-- The body of `prefixData`'s per-attribute loop for one attribute that is
present in the bag: SPECIAL serializes the whole bag into one
`string_<name>` field; every other type renames each sub-key with the prefix
chosen from the bag's `default` sub-key and the declared type, producing the
`obj_<name>` field. -/
def flattenAttr (a : IMemberAttribute) (bag : List (String × JsValue)) :
    Except String (String × JsValue) :=
  if a.type = MemberAttributeType.SPECIAL then
    Except.ok ("string_" ++ a.name, JsValue.str (jsonStringify (JsValue.obj bag)))
  else
    match attributeTypeToOpenSearchPfx (bagGet bag "default") a.type with
    | Except.error e => Except.error e
    | Except.ok pfx =>
        Except.ok ("obj_" ++ a.name, JsValue.obj (bag.map (fun kv => (pfx ++ "_" ++ kv.1, kv.2))))

/-- `prefixData`'s loop over the schema: attributes absent from the first
snapshot's bag are skipped (`attribute.name in attData`); the first
unmappable attribute type aborts the whole flattening. -/
def buildAttributes (attData : List (String × List (String × JsValue))) :
    List IMemberAttribute → Except String (List (String × JsValue))
  | [] => Except.ok []
  | a :: rest =>
      match attData.lookup a.name with
      | none => buildAttributes attData rest
      | some bag =>
          match flattenAttr a bag with
          | Except.error e => Except.error e
          | Except.ok entry =>
              match buildAttributes attData rest with
              | Except.error e => Except.error e
              | Except.ok tail => Except.ok (entry :: tail)

/-- Flattening of one identity row. -/
def mkIdentityEntry (i : MemberIdentityData) : IdentityEntry :=
  { string_platform := i.platform, string_username := i.username }

/-- Flattening of one segment snapshot into its `obj_arr_segments` entry. -/
def mkSegmentEntry (segData : IDbMemberSyncData) : SegmentEntry :=
  { uuid_segmentId := segData.segmentId
    obj_arr_organizations := segData.organizations.map fun organization =>
      { uuid_id := organization.id
        string_logo := organization.logo
        string_displayName := organization.displayName }
    obj_arr_tags := segData.tags.map fun tag =>
      { uuid_id := tag.id, string_name := tag.name }
    string_arr_activeOn := segData.activeOn
    int_activityCount := segData.activityCount
    string_arr_activityTypes := segData.activityTypes
    int_activeDaysCount := segData.activeDaysCount
    date_lastActive := segData.lastActive
    float_averageSentiment := segData.averageSentiment }

/-- `MemberSyncService.prefixData`: flattens one member's segment snapshots
(identity fields from the first snapshot, one `obj_arr_segments` entry per
snapshot) against the tenant's attribute schema.  The source reads
`segmentedMembers[0]` unconditionally, so an empty input is a crash
(modelled as an error); every caller passes a non-empty list. -/
def prefixData (segmentedMembers : List IDbMemberSyncData)
    (attributes : List IMemberAttribute) : Except String MemberDoc :=
  match segmentedMembers with
  | [] => Except.error "TypeError: cannot read properties of undefined"
  | data :: rest =>
      match buildAttributes data.attributes attributes with
      | Except.error e => Except.error e
      | Except.ok p_attributes =>
          Except.ok
            { uuid_memberId := data.id
              uuid_tenantId := data.tenantId
              string_displayName := data.displayName
              obj_attributes := p_attributes
              string_arr_emails := data.emails.getD []
              int_score := data.score
              date_lastEnriched := data.lastEnriched
              date_joinedAt := data.joinedAt
              int_totalReach := data.totalReach
              int_numberOfOpenSourceContributions := data.numberOfOpenSourceContributions
              obj_arr_identities := data.identities.map mkIdentityEntry
              uuid_arr_toMergeIds := data.toMergeIds
              uuid_arr_noMergeIds := data.noMergeIds
              obj_arr_segments := (data :: rest).map mkSegmentEntry }

/-- Observable effect of one incremental `syncMember` call: the snapshot
fetch of each attempt, the fixed `timeout(100)` delay between attempts, the
single-document index write (with its success flag), the `markSynced` call
and the index delete. -/
inductive MemberEv where
  | fetchAttempt (id : String) (attempt : Nat)
  | waitDelay (ms : Nat)
  | indexWrite (id : String) (doc : MemberDoc) (ok : Bool)
  | markSynced (ids : List String)
  | removeFromIndex (id : String)

/-- `MemberSyncService.syncMember(memberId, retries)`.  The snapshot fetch is
modelled from the spec (`fetchSnapshots`) as a function of the attempt
number, so that transient replication lag — a later attempt seeing data an
earlier one missed — is expressible.  `writeOk` is the success oracle of the
index write; a failed write throws, so nothing after it runs.  Returns the
event trace and the call's outcome. -/
def syncMemberRun (fetch : Nat → List IDbMemberSyncData)
    (attrs : List IMemberAttribute) (writeOk : Bool) (memberId : String)
    (retries : Nat) : List MemberEv × Except String Unit :=
  let members := fetch retries
  if 0 < members.length then
    match prefixData members attrs with
    | Except.error e => ([MemberEv.fetchAttempt memberId retries], Except.error e)
    | Except.ok doc =>
        if writeOk then
          ([MemberEv.fetchAttempt memberId retries,
            MemberEv.indexWrite memberId doc true,
            MemberEv.markSynced [memberId]], Except.ok ())
        else
          ([MemberEv.fetchAttempt memberId retries,
            MemberEv.indexWrite memberId doc false], Except.error "index write failed")
  else if h : retries < 5 then
    (MemberEv.fetchAttempt memberId retries :: MemberEv.waitDelay 100 ::
      (syncMemberRun fetch attrs writeOk memberId (retries + 1)).1,
      (syncMemberRun fetch attrs writeOk memberId (retries + 1)).2)
  else
    ([MemberEv.fetchAttempt memberId retries, MemberEv.removeFromIndex memberId],
      Except.ok ())
termination_by 5 - retries

/-- Entry point of incremental sync: `syncMember(memberId)` starts at
`retries = 0`. -/
def syncMember (fetch : Nat → List IDbMemberSyncData)
    (attrs : List IMemberAttribute) (writeOk : Bool) (memberId : String) :
    List MemberEv × Except String Unit :=
  syncMemberRun fetch attrs writeOk memberId 0

/-- Modelled from the spec: the index effect of a member-sync trace over the
IndexClient interface (§4.5) — `write` fully replaces the single document of
an id, `delete` removes it; failed writes and the other events do not touch
the index. -/
def applyMemberTrace : List MemberEv → List (String × MemberDoc) → List (String × MemberDoc)
  | [], idx => idx
  | MemberEv.indexWrite id doc true :: tr, idx =>
      applyMemberTrace tr ((idx.filter fun kv => decide (kv.1 ≠ id)) ++ [(id, doc)])
  | MemberEv.removeFromIndex id :: tr, idx =>
      applyMemberTrace tr (idx.filter fun kv => decide (kv.1 ≠ id))
  | _ :: tr, idx => applyMemberTrace tr idx

/-- Ordering discipline of a member-sync trace: a `markSynced` event may only
appear immediately after a successful single-document write of the same id. -/
def marksFollowWritesM : List MemberEv → Bool
  | [] => true
  | MemberEv.markSynced _ :: _ => false
  | MemberEv.indexWrite id _ true :: MemberEv.markSynced ids :: rest =>
      ids == [id] && marksFollowWritesM rest
  | _ :: rest => marksFollowWritesM rest

/-- Observable effect of the full tenant resync loop: each claim of pending
ids (`getTenantMembersForSync`), each bulk index write (with its success
flag) and each `markSynced` call. -/
inductive TenantEv where
  | claim (ids : List String)
  | bulkIndex (ids : List String) (ok : Bool)
  | markSynced (ids : List String)
deriving DecidableEq

/-- Modelled from the spec: the store side of a tenant resync
(`MemberRepository`, §4.4).  `data id` is the grouped-by-id snapshot
sequence `fetchSnapshots` returns for one id; `bulkOk n` is the success
oracle of the n-th bulk write of the run. -/
structure TenantEnv where
  data : String → List IDbMemberSyncData
  attrs : List IMemberAttribute
  bulkOk : Nat → Bool

/-- `getMemberData(ids)`: the snapshot rows of the requested ids, grouped by
id (modelled from the spec's `fetchSnapshots(ids) → grouped-by-id
sequence`). -/
def getMemberData (env : TenantEnv) (ids : List String) : List IDbMemberSyncData :=
  ids.flatMap env.data

/-- The key set of `groupBy(allMembers, m => m.id)` in first-occurrence
order (`Array.from(grouped.keys())`). -/
def dedupKeys : List IDbMemberSyncData → List String
  | [] => []
  | r :: rest => r.id :: dedupKeys (rest.filter fun x => decide (x.id ≠ r.id))
termination_by l => l.length
decreasing_by
  simp only [List.length_cons]
  exact Nat.lt_succ_of_le (List.length_filter_le _ _)

/-- `grouped.get(memberId)`: the rows of one group. -/
def groupGet (rows : List IDbMemberSyncData) (memberId : String) :
    List IDbMemberSyncData :=
  rows.filter fun r => decide (r.id = memberId)

/-- The `prepared` array of one batch: `prefixData` applied to each group,
in key order; the first flattening error aborts the batch. -/
def buildPrepared (rows : List IDbMemberSyncData) (attrs : List IMemberAttribute) :
    List String → Except String (List (String × MemberDoc))
  | [] => Except.ok []
  | id :: ids =>
      match prefixData (groupGet rows id) attrs with
      | Except.error e => Except.error e
      | Except.ok doc =>
          match buildPrepared rows attrs ids with
          | Except.error e => Except.error e
          | Except.ok tail => Except.ok ((id, doc) :: tail)

/-- The `while (memberIds.length > 0)` loop of
`MemberSyncService.syncTenantMembers`.  The pending queue is modelled from
the spec (§3, §4.4): `getTenantMembersForSync(tenantId, 1, batchSize)`
claims the first `B` still-pending ids, and `markSynced` removes the marked
ids from the queue.  The real loop is unbounded; `fuel` bounds the model,
and exhaustion (ruled out below under the claim's preconditions) is
reported as an error. -/
def syncTenantLoop (env : TenantEnv) (B : Nat) :
    Nat → Nat → List String → List TenantEv × Except String Unit
  | 0, _, _ => ([], Except.error "out of fuel")
  | fuel + 1, callIdx, pending =>
      if (pending.take B).isEmpty then ([TenantEv.claim (pending.take B)], Except.ok ())
      else
        if (dedupKeys (getMemberData env (pending.take B))).isEmpty then
          (TenantEv.claim (pending.take B) :: (syncTenantLoop env B fuel callIdx pending).1,
            (syncTenantLoop env B fuel callIdx pending).2)
        else
          match buildPrepared (getMemberData env (pending.take B)) env.attrs
              (dedupKeys (getMemberData env (pending.take B))) with
          | Except.error e => ([TenantEv.claim (pending.take B)], Except.error e)
          | Except.ok _prepared =>
              if env.bulkOk callIdx then
                (TenantEv.claim (pending.take B) ::
                  TenantEv.bulkIndex (dedupKeys (getMemberData env (pending.take B))) true ::
                  TenantEv.markSynced (dedupKeys (getMemberData env (pending.take B))) ::
                  (syncTenantLoop env B fuel (callIdx + 1) (pending.filter fun id =>
                    decide (id ∉ dedupKeys (getMemberData env (pending.take B))))).1,
                  (syncTenantLoop env B fuel (callIdx + 1) (pending.filter fun id =>
                    decide (id ∉ dedupKeys (getMemberData env (pending.take B))))).2)
              else
                ([TenantEv.claim (pending.take B),
                  TenantEv.bulkIndex (dedupKeys (getMemberData env (pending.take B))) false],
                  Except.error "bulk index failed")

/-- `MemberSyncService.syncTenantMembers(tenantId, reset, batchSize)`: if
`reset`, the pending queue is replaced by all of the tenant's member ids
(`setTenanMembersForSync`), then the claim loop runs. -/
def syncTenantMembers (env : TenantEnv) (allIds currentPending : List String)
    (reset : Bool) (B : Nat) : List TenantEv × Except String Unit :=
  let pending := if reset then allIds else currentPending
  syncTenantLoop env B (pending.length + 1) 0 pending

/-- Ordering discipline of a tenant-resync trace: a `markSynced` event may
only appear immediately after a successful bulk write of the same ids. -/
def marksFollowWrites : List TenantEv → Bool
  | [] => true
  | TenantEv.markSynced _ :: _ => false
  | TenantEv.bulkIndex ids true :: TenantEv.markSynced ids2 :: rest =>
      ids2 == ids && marksFollowWrites rest
  | _ :: rest => marksFollowWrites rest

/-- Is an event a claim of pending ids? -/
def isClaim : TenantEv → Bool
  | TenantEv.claim _ => true
  | _ => false

/-- Is an event a claim that returned a non-empty batch? -/
def isNonEmptyClaim : TenantEv → Bool
  | TenantEv.claim ids => !ids.isEmpty
  | _ => false

/-- Number of claim calls in a tenant-resync trace. -/
def claimCount (tr : List TenantEv) : Nat := tr.countP isClaim

/-- Number of claim calls that returned a non-empty batch. -/
def nonEmptyClaimCount (tr : List TenantEv) : Nat := tr.countP isNonEmptyClaim

/-- `ceil (n / b)` on naturals. -/
def pagesFor (n b : Nat) : Nat := (n + b - 1) / b

/-- A projected hit of the cleanup scan: document id, owning tenant
(`uuid_tenantId`) and sort key (`date_joinedAt`, an ordering key modelled as
a natural number).  The id type is abstract because the service only
compares ids for equality. -/
structure IndexEntry (Id : Type) where
  id : Id
  tenant : String
  key : Nat
deriving DecidableEq

/-- The `search_after` condition: no cursor admits every document, a cursor
admits strictly larger sort keys. -/
def afterCursor : Option Nat → Nat → Bool
  | none, _ => true
  | some c, k => decide (c < k)

/-- The cleanup scan's sort order: ascending join-timestamp key. -/
def keyLE {Id : Type} (a b : IndexEntry Id) : Prop := a.key ≤ b.key

instance {Id : Type} : DecidableRel (@keyLE Id) := fun a b => Nat.decLe a.key b.key

instance {Id : Type} : IsTotal (IndexEntry Id) keyLE := ⟨fun a b => Nat.le_total a.key b.key⟩

instance {Id : Type} : IsTrans (IndexEntry Id) keyLE := ⟨fun _ _ _ => Nat.le_trans⟩

/-- Modelled from the spec: `OpenSearchService.search` as used by the
cleanup pass (§4.3, §4.5) — boolean filter on the tenant, ascending sort by
the join-timestamp key, cursor strictly after the previous page's last key,
page of at most `n` hits. -/
def searchPage {Id : Type} (docs : List (IndexEntry Id)) (tenant : String)
    (cursor : Option Nat) (n : Nat) : List (IndexEntry Id) :=
  ((docs.filter fun d => decide (d.tenant = tenant) && afterCursor cursor d.key).insertionSort
    keyLE).take n

/-- The per-page orphan set: of the page's ids, `checkMembersExists`
(modelled from the spec's `existingIds` as a per-id predicate) returns the
existing subset `dbIds`, and the orphans are the ids absent from it. -/
def toRemoveIds {Id : Type} [DecidableEq Id] (existing : Id → Bool) (ids : List Id) :
    List Id :=
  ids.filter fun id => decide (id ∉ ids.filter fun id2 => existing id2)

/-- The `while (results.length > 0)` loop of
`MemberSyncService.cleanupMemberIndex`: per page, remove each orphan one at
a time (`removeMember` → index delete), and continue after the page's last
sort key.  The real loop is unbounded; `fuel` bounds the model.  Returns the
final index contents and the removed ids, in removal order. -/
def cleanupLoop {Id : Type} [DecidableEq Id] (existing : Id → Bool) (tenant : String) :
    Nat → List (IndexEntry Id) → Option Nat → Option (List (IndexEntry Id) × List Id)
  | 0, _, _ => none
  | fuel + 1, docs, cursor =>
      if (searchPage docs tenant cursor 500).isEmpty then some (docs, [])
      else
        match cleanupLoop existing tenant fuel
            ((toRemoveIds existing ((searchPage docs tenant cursor 500).map fun r => r.id)).foldl
              (fun ds id => ds.filter fun d => decide (d.id ≠ id)) docs)
            (((searchPage docs tenant cursor 500).getLast?).map fun d => d.key) with
        | none => none
        | some (finalDocs, removed) =>
            some (finalDocs,
              toRemoveIds existing ((searchPage docs tenant cursor 500).map fun r => r.id) ++
                removed)

/-- `MemberSyncService.cleanupMemberIndex(tenantId)`: the cleanup scan from
the start of the index (no cursor).  Every non-empty page strictly shrinks
the set of tenant documents beyond the cursor, so `docs.length + 1` pages of
fuel always suffice. -/
def cleanupMemberIndex {Id : Type} [DecidableEq Id] (existing : Id → Bool)
    (tenant : String) (docs : List (IndexEntry Id)) :
    Option (List (IndexEntry Id) × List Id) :=
  cleanupLoop existing tenant (docs.length + 1) docs none

/-- A test member row used by concrete witnesses; its attribute bag is the
parameter. -/
def mkTestMember (attData : List (String × List (String × JsValue))) : IDbMemberSyncData :=
  { id := "m1"
    tenantId := "t1"
    displayName := "Member One"
    attributes := attData
    emails := some ["a@b.c"]
    score := 10
    lastEnriched := "2023-01-01"
    joinedAt := "2023-01-02"
    totalReach := 3
    numberOfOpenSourceContributions := 4
    identities := [{ platform := "github", username := "m1" }]
    toMergeIds := []
    noMergeIds := []
    segmentId := "s1"
    organizations := [{ id := "o1", logo := "l", displayName := "Org" }]
    tags := [{ id := "t1", name := "tag" }]
    activeOn := ["github"]
    activityCount := 5
    activityTypes := ["star"]
    activeDaysCount := 2
    lastActive := "2023-01-03"
    averageSentiment := 1/2 }

/-- An attribute with a type outside the enumerated set flattens to the
switch's default-case error. -/
lemma flattenAttr_unknown (a : IMemberAttribute) (bag : List (String × JsValue))
    (s : String) (h : a.type = MemberAttributeType.UNKNOWN s) :
    flattenAttr a bag =
      Except.error ("Could not map attribute type: " ++ s ++ " to OpenSearch type!") := by
  rw [flattenAttr, if_neg (by rw [h]; exact fun hc => by cases hc), h]
  rfl

/-- If the schema loop succeeds, every schema attribute present in the bag
contributed its flattened entry to the result. -/
lemma buildAttributes_mem {attData : List (String × List (String × JsValue))}
    {attrs : List IMemberAttribute} {pa : List (String × JsValue)}
    (hok : buildAttributes attData attrs = Except.ok pa)
    {a : IMemberAttribute} (ha : a ∈ attrs) {bag : List (String × JsValue)}
    (hbag : attData.lookup a.name = some bag) :
    ∃ entry, flattenAttr a bag = Except.ok entry ∧ entry ∈ pa := by
  induction attrs generalizing pa with
  | nil => cases ha
  | cons a0 rest ih =>
    rw [buildAttributes] at hok
    split at hok
    · rename_i hl
      rcases List.mem_cons.mp ha with rfl | hmem
      · rw [hbag] at hl; cases hl
      · exact ih hok hmem
    · rename_i bag0 hl
      split at hok
      · cases hok
      · rename_i entry0 hfa
        split at hok
        · cases hok
        · rename_i tail hrest
          injection hok with hok2
          subst hok2
          rcases List.mem_cons.mp ha with rfl | hmem
          · rw [hbag] at hl
            injection hl with hl2
            subst hl2
            exact ⟨entry0, hfa, List.mem_cons_self _ _⟩
          · obtain ⟨entry, h1, h2⟩ := ih hrest hmem
            exact ⟨entry, h1, List.mem_cons_of_mem _ h2⟩

/-- A successful flattening determines every field of the document. -/
lemma prefixData_fields {m : IDbMemberSyncData} {rest : List IDbMemberSyncData}
    {attrs : List IMemberAttribute} {d : MemberDoc}
    (h : prefixData (m :: rest) attrs = Except.ok d) :
    buildAttributes m.attributes attrs = Except.ok d.obj_attributes ∧
    d = { uuid_memberId := m.id
          uuid_tenantId := m.tenantId
          string_displayName := m.displayName
          obj_attributes := d.obj_attributes
          string_arr_emails := m.emails.getD []
          int_score := m.score
          date_lastEnriched := m.lastEnriched
          date_joinedAt := m.joinedAt
          int_totalReach := m.totalReach
          int_numberOfOpenSourceContributions := m.numberOfOpenSourceContributions
          obj_arr_identities := m.identities.map mkIdentityEntry
          uuid_arr_toMergeIds := m.toMergeIds
          uuid_arr_noMergeIds := m.noMergeIds
          obj_arr_segments := (m :: rest).map mkSegmentEntry } := by
  rw [prefixData] at h
  split at h
  · cases h
  · rename_i pa hpa
    injection h with h2
    subst h2
    exact ⟨hpa, rfl⟩

/-- C3 counterexample: the claim quantifies over *any* snapshot set, but an
attribute whose type is outside the enumerated set only reaches the
type-mapping switch when its name is present in the first snapshot's bag
(`attribute.name in attData`); with an empty bag the flattening succeeds and
produces a document. -/
theorem unknown_type_absent_attribute_flattens :
    ∃ d, prefixData [mkTestMember []] [⟨"weird", MemberAttributeType.UNKNOWN "emoji"⟩] =
      Except.ok d :=
  ⟨_, rfl⟩

/-- C3 (amended): for every schema containing an attribute definition whose
type is outside the enumerated set and whose name is present in the first
snapshot's attribute bag, flattening raises the mapping error and produces
no document; the error is propagated (an `Except.error` result), not
swallowed. -/
theorem unknown_type_present_errors
    (m : IDbMemberSyncData) (rest : List IDbMemberSyncData)
    (attrs : List IMemberAttribute) (a : IMemberAttribute) (s : String)
    (bag : List (String × JsValue)) (ha : a ∈ attrs)
    (hty : a.type = MemberAttributeType.UNKNOWN s)
    (hbag : m.attributes.lookup a.name = some bag) :
    ∃ e, prefixData (m :: rest) attrs = Except.error e := by
  cases hres : prefixData (m :: rest) attrs with
  | error e => exact ⟨e, rfl⟩
  | ok d =>
    obtain ⟨hba, -⟩ := prefixData_fields hres
    obtain ⟨entry, hfa, -⟩ := buildAttributes_mem hba ha hbag
    rw [flattenAttr_unknown a bag s hty] at hfa
    cases hfa

/-- C3 witness: a schema with an unknown-typed attribute that *is* present
in the bag makes the whole flattening fail. -/
theorem unknown_type_present_errors_witness :
    ∃ e, prefixData [mkTestMember [("weird", [("default", JsValue.null)])]]
      [⟨"weird", MemberAttributeType.UNKNOWN "emoji"⟩] = Except.error e :=
  unknown_type_present_errors _ [] _ ⟨"weird", MemberAttributeType.UNKNOWN "emoji"⟩ "emoji" _
    (List.mem_singleton.mpr rfl) rfl rfl

/-- C4: for each declared attribute type, flattening an attribute of that
type yields sub-fields named with exactly the table's prefix — BOOLEAN ⇒
`bool_`, NUMBER with integer default ⇒ `int_`, NUMBER with non-integer
numeric default ⇒ `float_`, EMAIL/STRING/URL ⇒ `string_`, DATE ⇒ `date_`,
MULTI_SELECT ⇒ `string_arr_`, and SPECIAL ⇒ a single `string_`-prefixed
serialized field. -/
theorem attribute_prefix_table :
    (∀ (name : String) (bag : List (String × JsValue)),
      flattenAttr ⟨name, MemberAttributeType.BOOLEAN⟩ bag =
        Except.ok ("obj_" ++ name, JsValue.obj (bag.map fun kv => ("bool_" ++ kv.1, kv.2)))) ∧
    (∀ (name : String) (bag : List (String × JsValue)) (q : ℚ),
      bagGet bag "default" = JsValue.num q → q.den = 1 →
      flattenAttr ⟨name, MemberAttributeType.NUMBER⟩ bag =
        Except.ok ("obj_" ++ name, JsValue.obj (bag.map fun kv => ("int_" ++ kv.1, kv.2)))) ∧
    (∀ (name : String) (bag : List (String × JsValue)) (q : ℚ),
      bagGet bag "default" = JsValue.num q → q.den ≠ 1 →
      flattenAttr ⟨name, MemberAttributeType.NUMBER⟩ bag =
        Except.ok ("obj_" ++ name, JsValue.obj (bag.map fun kv => ("float_" ++ kv.1, kv.2)))) ∧
    (∀ (name : String) (bag : List (String × JsValue)),
      flattenAttr ⟨name, MemberAttributeType.EMAIL⟩ bag =
        Except.ok ("obj_" ++ name, JsValue.obj (bag.map fun kv => ("string_" ++ kv.1, kv.2)))) ∧
    (∀ (name : String) (bag : List (String × JsValue)),
      flattenAttr ⟨name, MemberAttributeType.STRING⟩ bag =
        Except.ok ("obj_" ++ name, JsValue.obj (bag.map fun kv => ("string_" ++ kv.1, kv.2)))) ∧
    (∀ (name : String) (bag : List (String × JsValue)),
      flattenAttr ⟨name, MemberAttributeType.URL⟩ bag =
        Except.ok ("obj_" ++ name, JsValue.obj (bag.map fun kv => ("string_" ++ kv.1, kv.2)))) ∧
    (∀ (name : String) (bag : List (String × JsValue)),
      flattenAttr ⟨name, MemberAttributeType.DATE⟩ bag =
        Except.ok ("obj_" ++ name, JsValue.obj (bag.map fun kv => ("date_" ++ kv.1, kv.2)))) ∧
    (∀ (name : String) (bag : List (String × JsValue)),
      flattenAttr ⟨name, MemberAttributeType.MULTI_SELECT⟩ bag =
        Except.ok ("obj_" ++ name, JsValue.obj (bag.map fun kv => ("string_arr_" ++ kv.1, kv.2)))) ∧
    (∀ (name : String) (bag : List (String × JsValue)),
      flattenAttr ⟨name, MemberAttributeType.SPECIAL⟩ bag =
        Except.ok ("string_" ++ name, JsValue.str (jsonStringify (JsValue.obj bag)))) := by
  refine ⟨?_, ?_, ?_, ?_, ?_, ?_, ?_, ?_, ?_⟩
  · intro name bag
    simp [flattenAttr, attributeTypeToOpenSearchPfx]
  · intro name bag q hdef hq
    simp [flattenAttr, attributeTypeToOpenSearchPfx, hdef, jsMod1IsZero, hq]
  · intro name bag q hdef hq
    simp [flattenAttr, attributeTypeToOpenSearchPfx, hdef, jsMod1IsZero, hq]
  · intro name bag
    simp [flattenAttr, attributeTypeToOpenSearchPfx]
  · intro name bag
    simp [flattenAttr, attributeTypeToOpenSearchPfx]
  · intro name bag
    simp [flattenAttr, attributeTypeToOpenSearchPfx]
  · intro name bag
    simp [flattenAttr, attributeTypeToOpenSearchPfx]
  · intro name bag
    simp [flattenAttr, attributeTypeToOpenSearchPfx]
  · intro name bag
    simp [flattenAttr]

/-- C4 witness: the two NUMBER hypotheses discharged at concrete inputs —
default 5 gives `int_` sub-fields, default 11/2 gives `float_`. -/
theorem attribute_prefix_table_witness :
    flattenAttr ⟨"a", MemberAttributeType.NUMBER⟩ [("default", JsValue.num 5)] =
      Except.ok ("obj_a", JsValue.obj [("int_default", JsValue.num 5)]) ∧
    flattenAttr ⟨"a", MemberAttributeType.NUMBER⟩
        [("default", JsValue.num ⟨11, 2, by decide, by decide⟩)] =
      Except.ok ("obj_a", JsValue.obj
        [("float_default", JsValue.num ⟨11, 2, by decide, by decide⟩)]) ∧
    flattenAttr ⟨"b", MemberAttributeType.BOOLEAN⟩ [("default", JsValue.bool true)] =
      Except.ok ("obj_b", JsValue.obj [("bool_default", JsValue.bool true)]) := by
  refine ⟨?_, ?_, ?_⟩
  · exact attribute_prefix_table.2.1 "a" _ 5 rfl (by decide)
  · exact attribute_prefix_table.2.2.1 "a" _ ⟨11, 2, by decide, by decide⟩ rfl (by decide)
  · exact attribute_prefix_table.1 "b" _

/-- C5: for each schema attribute present in the first snapshot's attribute
bag, flattening produces — if the type is SPECIAL — a single serialized
string field `string_<name>`, and otherwise a nested object field
`obj_<name>` containing every sub-key of the bag, each renamed with the
prefix chosen from the bag's "default" sub-key value and the declared
type. -/
theorem present_attribute_flattening
    (m : IDbMemberSyncData) (rest : List IDbMemberSyncData)
    (attrs : List IMemberAttribute) (d : MemberDoc) (a : IMemberAttribute)
    (bag : List (String × JsValue))
    (hok : prefixData (m :: rest) attrs = Except.ok d) (ha : a ∈ attrs)
    (hbag : m.attributes.lookup a.name = some bag) :
    (a.type = MemberAttributeType.SPECIAL →
      ("string_" ++ a.name, JsValue.str (jsonStringify (JsValue.obj bag))) ∈ d.obj_attributes) ∧
    (a.type ≠ MemberAttributeType.SPECIAL →
      ∃ pfx, attributeTypeToOpenSearchPfx (bagGet bag "default") a.type = Except.ok pfx ∧
        ("obj_" ++ a.name, JsValue.obj (bag.map fun kv => (pfx ++ "_" ++ kv.1, kv.2))) ∈
          d.obj_attributes) := by
  obtain ⟨hba, -⟩ := prefixData_fields hok
  obtain ⟨entry, hfa, hmem⟩ := buildAttributes_mem hba ha hbag
  constructor
  · intro hsp
    rw [flattenAttr, if_pos hsp] at hfa
    injection hfa with h2
    rw [h2]
    exact hmem
  · intro hns
    rw [flattenAttr, if_neg hns] at hfa
    split at hfa
    · cases hfa
    · rename_i pfx hpfx
      injection hfa with h2
      exact ⟨pfx, hpfx, by rw [h2]; exact hmem⟩

/-- C5 witness: a SPECIAL attribute and a BOOLEAN attribute, both present in
the bag, produce the serialized string field and the prefixed object
field. -/
theorem present_attribute_flattening_witness :
    ∃ d, prefixData
        [mkTestMember [("sp", [("default", JsValue.str "v")]),
                       ("fl", [("default", JsValue.bool true)])]]
        [⟨"sp", MemberAttributeType.SPECIAL⟩, ⟨"fl", MemberAttributeType.BOOLEAN⟩] =
      Except.ok d ∧
      ("string_sp", JsValue.str (jsonStringify
        (JsValue.obj [("default", JsValue.str "v")]))) ∈ d.obj_attributes ∧
      ∃ pfx, attributeTypeToOpenSearchPfx (bagGet [("default", JsValue.bool true)] "default")
          MemberAttributeType.BOOLEAN = Except.ok pfx ∧
        ("obj_" ++ "fl", JsValue.obj ([("default", JsValue.bool true)].map fun kv =>
          (pfx ++ "_" ++ kv.1, kv.2))) ∈ d.obj_attributes := by
  refine ⟨_, rfl, ?_, ?_⟩
  · exact (present_attribute_flattening
      (mkTestMember [("sp", [("default", JsValue.str "v")]),
                     ("fl", [("default", JsValue.bool true)])]) []
      [⟨"sp", MemberAttributeType.SPECIAL⟩, ⟨"fl", MemberAttributeType.BOOLEAN⟩] _
      ⟨"sp", MemberAttributeType.SPECIAL⟩ [("default", JsValue.str "v")] rfl
      (List.mem_cons_self _ _) rfl).1 rfl
  · exact (present_attribute_flattening
      (mkTestMember [("sp", [("default", JsValue.str "v")]),
                     ("fl", [("default", JsValue.bool true)])]) []
      [⟨"sp", MemberAttributeType.SPECIAL⟩, ⟨"fl", MemberAttributeType.BOOLEAN⟩] _
      ⟨"fl", MemberAttributeType.BOOLEAN⟩ [("default", JsValue.bool true)] rfl
      (List.mem_cons_of_mem _ (List.mem_cons_self _ _)) rfl).2 (by decide)

/-- C8: on any successful flattening of a non-empty snapshot list, every
top-level identity/scalar field (ids, display name, emails, score, dates,
reach, contributions, identities, merge-id lists, attributes) is taken from
the first snapshot only, and `obj_arr_segments` has exactly one entry per
input snapshot, in input order, each built by `mkSegmentEntry` from that
snapshot (its organizations, tags, activity metrics and sentiment). -/
theorem fields_from_first_snapshot_and_segments
    (m : IDbMemberSyncData) (rest : List IDbMemberSyncData)
    (attrs : List IMemberAttribute) (d : MemberDoc)
    (hok : prefixData (m :: rest) attrs = Except.ok d) :
    d.uuid_memberId = m.id ∧ d.uuid_tenantId = m.tenantId ∧
    d.string_displayName = m.displayName ∧
    buildAttributes m.attributes attrs = Except.ok d.obj_attributes ∧
    d.string_arr_emails = m.emails.getD [] ∧ d.int_score = m.score ∧
    d.date_lastEnriched = m.lastEnriched ∧ d.date_joinedAt = m.joinedAt ∧
    d.int_totalReach = m.totalReach ∧
    d.int_numberOfOpenSourceContributions = m.numberOfOpenSourceContributions ∧
    d.obj_arr_identities = m.identities.map mkIdentityEntry ∧
    d.uuid_arr_toMergeIds = m.toMergeIds ∧ d.uuid_arr_noMergeIds = m.noMergeIds ∧
    d.obj_arr_segments = (m :: rest).map mkSegmentEntry := by
  obtain ⟨hba, hd⟩ := prefixData_fields hok
  refine ⟨by rw [hd], by rw [hd], by rw [hd], hba, by rw [hd], by rw [hd], by rw [hd],
    by rw [hd], by rw [hd], by rw [hd], by rw [hd], by rw [hd], by rw [hd], by rw [hd]⟩

/-- C8 witness: a two-snapshot member — scalar fields come from the first
snapshot, and the segments array has one entry per snapshot in order. -/
theorem fields_from_first_snapshot_and_segments_witness :
    ∃ d, prefixData [mkTestMember [], mkTestMember []] [] = Except.ok d ∧
      d.uuid_memberId = "m1" ∧
      d.obj_arr_segments =
        [mkSegmentEntry (mkTestMember []), mkSegmentEntry (mkTestMember [])] := by
  obtain ⟨h1, -, -, -, -, -, -, -, -, -, -, -, -, h14⟩ :=
    fields_from_first_snapshot_and_segments (mkTestMember []) [mkTestMember []] [] _ rfl
  exact ⟨_, rfl, h1, h14⟩

/-- C10 counterexample: the claim says a non-number "default" sub-key makes
every sub-key `float_`-prefixed, but JavaScript coerces `null` with
`null % 1 === 0` to true, so a NUMBER attribute whose default is null gets
`int_`-prefixed sub-fields, not `float_`-prefixed ones. -/
theorem number_default_null_gives_int :
    (prefixData [mkTestMember [("a", [("default", JsValue.null)])]]
        [⟨"a", MemberAttributeType.NUMBER⟩]).map (fun d => d.obj_attributes) =
      Except.ok [("obj_a", JsValue.obj [("int_default", JsValue.null)])] ∧
    "int_default" ≠ "float_default" :=
  ⟨rfl, by decide⟩

/-- C10 (amended): for a NUMBER attribute present in the bag, the
integer-versus-float decision is exactly the JavaScript test
`default % 1 === 0` (embedded as `jsMod1IsZero`) on the bag's "default"
sub-key; when the sub-key is absent, or its value's ToNumber coercion makes
the test false (NaN cases such as `undefined` — but not `null` or booleans,
which coerce to integers), every sub-key is `float_`-prefixed and no error
is raised. -/
theorem number_prefix_is_mod1_test (name : String) (bag : List (String × JsValue)) :
    flattenAttr ⟨name, MemberAttributeType.NUMBER⟩ bag =
      Except.ok ("obj_" ++ name, JsValue.obj (bag.map fun kv =>
        ((if jsMod1IsZero (bagGet bag "default") then "int" else "float") ++ "_" ++ kv.1,
          kv.2))) ∧
    (bag.lookup "default" = none →
      flattenAttr ⟨name, MemberAttributeType.NUMBER⟩ bag =
        Except.ok ("obj_" ++ name, JsValue.obj (bag.map fun kv => ("float_" ++ kv.1, kv.2)))) ∧
    (jsMod1IsZero (bagGet bag "default") = false →
      flattenAttr ⟨name, MemberAttributeType.NUMBER⟩ bag =
        Except.ok ("obj_" ++ name, JsValue.obj (bag.map fun kv => ("float_" ++ kv.1, kv.2)))) := by
  refine ⟨?_, ?_, ?_⟩
  · cases h : jsMod1IsZero (bagGet bag "default") <;>
      simp [flattenAttr, attributeTypeToOpenSearchPfx, h]
  · intro habs
    have h : jsMod1IsZero (bagGet bag "default") = false := by
      rw [bagGet, habs]; rfl
    simp [flattenAttr, attributeTypeToOpenSearchPfx, h]
  · intro h
    simp [flattenAttr, attributeTypeToOpenSearchPfx, h]

/-- C10 witness: a bag without a "default" sub-key gets `float_`-prefixed
sub-fields. -/
theorem number_prefix_is_mod1_test_witness :
    flattenAttr ⟨"a", MemberAttributeType.NUMBER⟩ [("x", JsValue.num 1)] =
      Except.ok ("obj_a", JsValue.obj [("float_x", JsValue.num 1)]) :=
  (number_prefix_is_mod1_test "a" [("x", JsValue.num 1)]).2.1 rfl

/-- After filtering out every pair with a given key, a lookup of that key
finds nothing. -/
lemma lookup_filter_ne (idx : List (String × MemberDoc)) (id : String) :
    List.lookup id (idx.filter fun kv => decide (kv.1 ≠ id)) = none := by
  induction idx with
  | nil => rfl
  | cons kv rest ih =>
    by_cases h : kv.1 = id
    · simp only [List.filter_cons, h]
      rw [if_neg (by simp)]
      exact ih
    · have h2 : (id == kv.1) = false := beq_eq_false_iff_ne.mpr fun e => h e.symm
      simp only [List.filter_cons]
      rw [if_pos (by simp [h]), List.lookup, h2]
      exact ih

/-- Upserting a document (filter out the key, append the new pair) makes a
lookup of that key find exactly the new document. -/
lemma lookup_filter_append (idx : List (String × MemberDoc)) (id : String) (doc : MemberDoc) :
    List.lookup id ((idx.filter fun kv => decide (kv.1 ≠ id)) ++ [(id, doc)]) = some doc := by
  induction idx with
  | nil => simp [List.lookup]
  | cons kv rest ih =>
    by_cases h : kv.1 = id
    · simp only [List.filter_cons]
      rw [if_neg (by simp [h])]
      exact ih
    · have h2 : (id == kv.1) = false := beq_eq_false_iff_ne.mpr fun e => h e.symm
      simp only [List.filter_cons]
      rw [if_pos (by simp [h]), List.cons_append, List.lookup, h2]
      exact ih

/-- C2: when the snapshot fetch is empty on the initial try and on every
retry, incremental sync performs attempts 0 through 5 (5 retries beyond the
initial try), waits the fixed 100 ms delay between consecutive attempts,
and then issues an index delete for the id instead of raising an error
(outcome `Except.ok`), so the id ends absent from the index. -/
theorem retry_exhaustion_removes (fetch : Nat → List IDbMemberSyncData)
    (attrs : List IMemberAttribute) (writeOk : Bool) (id : String)
    (hf : ∀ n, n ≤ 5 → fetch n = []) :
    syncMember fetch attrs writeOk id =
      ([MemberEv.fetchAttempt id 0, MemberEv.waitDelay 100,
        MemberEv.fetchAttempt id 1, MemberEv.waitDelay 100,
        MemberEv.fetchAttempt id 2, MemberEv.waitDelay 100,
        MemberEv.fetchAttempt id 3, MemberEv.waitDelay 100,
        MemberEv.fetchAttempt id 4, MemberEv.waitDelay 100,
        MemberEv.fetchAttempt id 5, MemberEv.removeFromIndex id], Except.ok ()) ∧
    ∀ idx, List.lookup id (applyMemberTrace (syncMember fetch attrs writeOk id).1 idx) = none := by
  have e0 : fetch 0 = [] := hf 0 (by omega)
  have e1 : fetch 1 = [] := hf 1 (by omega)
  have e2 : fetch 2 = [] := hf 2 (by omega)
  have e3 : fetch 3 = [] := hf 3 (by omega)
  have e4 : fetch 4 = [] := hf 4 (by omega)
  have e5 : fetch 5 = [] := hf 5 (by omega)
  have htr : syncMember fetch attrs writeOk id =
      ([MemberEv.fetchAttempt id 0, MemberEv.waitDelay 100,
        MemberEv.fetchAttempt id 1, MemberEv.waitDelay 100,
        MemberEv.fetchAttempt id 2, MemberEv.waitDelay 100,
        MemberEv.fetchAttempt id 3, MemberEv.waitDelay 100,
        MemberEv.fetchAttempt id 4, MemberEv.waitDelay 100,
        MemberEv.fetchAttempt id 5, MemberEv.removeFromIndex id], Except.ok ()) := by
    rw [syncMember]
    rw [syncMemberRun]; simp only [e0, List.length_nil, Nat.lt_irrefl, if_false, dif_pos (by omega : (0:Nat) < 5)]
    rw [syncMemberRun]; simp only [e1, List.length_nil, Nat.lt_irrefl, if_false, dif_pos (by omega : (1:Nat) < 5)]
    rw [syncMemberRun]; simp only [e2, List.length_nil, Nat.lt_irrefl, if_false, dif_pos (by omega : (2:Nat) < 5)]
    rw [syncMemberRun]; simp only [e3, List.length_nil, Nat.lt_irrefl, if_false, dif_pos (by omega : (3:Nat) < 5)]
    rw [syncMemberRun]; simp only [e4, List.length_nil, Nat.lt_irrefl, if_false, dif_pos (by omega : (4:Nat) < 5)]
    rw [syncMemberRun]; simp only [e5, List.length_nil, Nat.lt_irrefl, if_false, dif_neg (by omega : ¬ (5:Nat) < 5)]
    simp
  refine ⟨htr, ?_⟩
  intro idx
  rw [htr]
  show List.lookup id (applyMemberTrace _ idx) = none
  simp only [applyMemberTrace]
  exact lookup_filter_ne idx id

/-- C2 witness: a fetch that is always empty — the trace, the non-error
outcome and the absence from an empty index. -/
theorem retry_exhaustion_removes_witness :
    syncMember (fun _ => []) [] true "m1" =
      ([MemberEv.fetchAttempt "m1" 0, MemberEv.waitDelay 100,
        MemberEv.fetchAttempt "m1" 1, MemberEv.waitDelay 100,
        MemberEv.fetchAttempt "m1" 2, MemberEv.waitDelay 100,
        MemberEv.fetchAttempt "m1" 3, MemberEv.waitDelay 100,
        MemberEv.fetchAttempt "m1" 4, MemberEv.waitDelay 100,
        MemberEv.fetchAttempt "m1" 5, MemberEv.removeFromIndex "m1"], Except.ok ()) ∧
    List.lookup "m1" (applyMemberTrace (syncMember (fun _ => []) [] true "m1").1 []) = none := by
  have h := retry_exhaustion_removes (fun _ => []) [] true "m1" (fun n _ => rfl)
  exact ⟨h.1, h.2 []⟩

/-- C7: when the snapshot fetch returns a non-empty result on the first
attempt and flattening succeeds, one incremental sync call fetches the
snapshots, writes the single flattened document, marks the member synced
(in that order, ending `Except.ok`), and afterwards the index holds exactly
that document under the member's id. -/
theorem member_sync_success (fetch : Nat → List IDbMemberSyncData)
    (attrs : List IMemberAttribute) (id : String) (doc : MemberDoc)
    (hne : fetch 0 ≠ []) (hok : prefixData (fetch 0) attrs = Except.ok doc) :
    syncMember fetch attrs true id =
      ([MemberEv.fetchAttempt id 0, MemberEv.indexWrite id doc true,
        MemberEv.markSynced [id]], Except.ok ()) ∧
    ∀ idx, List.lookup id (applyMemberTrace (syncMember fetch attrs true id).1 idx) = some doc := by
  have hlen : 0 < (fetch 0).length := List.length_pos.mpr hne
  have htr : syncMember fetch attrs true id =
      ([MemberEv.fetchAttempt id 0, MemberEv.indexWrite id doc true,
        MemberEv.markSynced [id]], Except.ok ()) := by
    rw [syncMember, syncMemberRun]
    simp only [hlen, if_true, hok, if_pos rfl]
  refine ⟨htr, ?_⟩
  intro idx
  rw [htr]
  show List.lookup id (applyMemberTrace _ idx) = some doc
  simp only [applyMemberTrace]
  exact lookup_filter_append idx id doc

/-- C7 witness: a one-snapshot member is fetched, flattened, written and
marked synced; the index then holds the flattened document. -/
theorem member_sync_success_witness :
    ∃ doc, prefixData [mkTestMember []] [] = Except.ok doc ∧
      syncMember (fun _ => [mkTestMember []]) [] true "m1" =
        ([MemberEv.fetchAttempt "m1" 0, MemberEv.indexWrite "m1" doc true,
          MemberEv.markSynced ["m1"]], Except.ok ()) ∧
      List.lookup "m1"
        (applyMemberTrace (syncMember (fun _ => [mkTestMember []]) [] true "m1").1 []) =
        some doc := by
  have h := member_sync_success (fun _ => [mkTestMember []]) [] "m1" _
    (List.cons_ne_nil _ _) rfl
  exact ⟨_, rfl, h.1, h.2 []⟩

/-- When each claimed id has at least one snapshot row and every row carries
its own id, grouping the fetched rows yields exactly the claimed ids, in
order. -/
lemma dedupKeys_flatMap (data : String → List IDbMemberSyncData) :
    ∀ ids : List String, ids.Nodup →
    (∀ id ∈ ids, data id ≠ []) →
    (∀ id ∈ ids, ∀ r ∈ data id, r.id = id) →
    dedupKeys (ids.flatMap data) = ids := by
  intro ids
  induction ids with
  | nil => intro _ _ _; rw [List.flatMap_nil, dedupKeys]
  | cons a rest ih =>
    intro hnd hne hid
    obtain ⟨hamem, hndr⟩ := List.nodup_cons.mp hnd
    rw [List.flatMap_cons]
    cases hda : data a with
    | nil => exact absurd hda (hne a (List.mem_cons_self a rest))
    | cons r0 rs =>
      have hr0 : r0.id = a :=
        hid a (List.mem_cons_self a rest) r0 (by rw [hda]; exact List.mem_cons_self _ _)
      rw [List.cons_append, dedupKeys]
      have h1 : (rs ++ rest.flatMap data).filter (fun x => decide (x.id ≠ r0.id)) =
          rest.flatMap data := by
        rw [List.filter_append]
        have hrs : rs.filter (fun x => decide (x.id ≠ r0.id)) = [] := by
          rw [List.filter_eq_nil_iff]
          intro x hx
          have : x.id = a := hid a (List.mem_cons_self a rest) x
            (by rw [hda]; exact List.mem_cons_of_mem _ hx)
          simp [this, hr0]
        have hfm : (rest.flatMap data).filter (fun x => decide (x.id ≠ r0.id)) =
            rest.flatMap data := by
          rw [List.filter_eq_self]
          intro x hx
          obtain ⟨b, hb, hxb⟩ := List.mem_flatMap.mp hx
          have hxid : x.id = b := hid b (List.mem_cons_of_mem _ hb) x hxb
          have : b ≠ a := fun e => hamem (e ▸ hb)
          simp [hxid, hr0, this]
        rw [hrs, hfm, List.nil_append]
      rw [h1, hr0, ih hndr
        (fun id hm => hne id (List.mem_cons_of_mem _ hm))
        (fun id hm => hid id (List.mem_cons_of_mem _ hm))]

/-- When the claimed ids are distinct and every row carries its own id, each
group of the fetched rows is exactly the store's rows for that id. -/
lemma groupGet_flatMap (data : String → List IDbMemberSyncData) :
    ∀ ids : List String, ids.Nodup →
    (∀ id ∈ ids, ∀ r ∈ data id, r.id = id) →
    ∀ a ∈ ids, groupGet (ids.flatMap data) a = data a := by
  intro ids
  induction ids with
  | nil => intro _ _ a ha; cases ha
  | cons b rest ih =>
    intro hnd hid a ha
    obtain ⟨hbmem, hndr⟩ := List.nodup_cons.mp hnd
    rw [groupGet, List.flatMap_cons, List.filter_append]
    rcases List.mem_cons.mp ha with rfl | hmem
    · have h1 : (data a).filter (fun r => decide (r.id = a)) = data a := by
        rw [List.filter_eq_self]
        intro x hx
        simp [hid a (List.mem_cons_self a rest) x hx]
      have h2 : (rest.flatMap data).filter (fun r => decide (r.id = a)) = [] := by
        rw [List.filter_eq_nil_iff]
        intro x hx
        obtain ⟨c, hc, hxc⟩ := List.mem_flatMap.mp hx
        have hxid : x.id = c := hid c (List.mem_cons_of_mem _ hc) x hxc
        have : c ≠ a := fun e => hbmem (e ▸ hc)
        simp [hxid, this]
      rw [h1, h2, List.append_nil]
    · have h1 : (data b).filter (fun r => decide (r.id = a)) = [] := by
        rw [List.filter_eq_nil_iff]
        intro x hx
        have hxid : x.id = b := hid b (List.mem_cons_self b rest) x hx
        have : b ≠ a := fun e => hbmem (e ▸ hmem)
        simp [hxid, this]
      have h2 := ih hndr (fun id hm => hid id (List.mem_cons_of_mem _ hm)) a hmem
      rw [groupGet] at h2
      rw [h1, h2, List.nil_append]

/-- Filtering an appended list by non-membership in its first part keeps
exactly the (disjoint) second part. -/
lemma filter_not_mem_append (t d : List String) (hdisj : t.Disjoint d) :
    (t ++ d).filter (fun id => decide (id ∉ t)) = d := by
  rw [List.filter_append]
  have h1 : t.filter (fun id => decide (id ∉ t)) = [] := by
    rw [List.filter_eq_nil_iff]
    intro x hx
    simp [hx]
  have h2 : d.filter (fun id => decide (id ∉ t)) = d := by
    rw [List.filter_eq_self]
    intro x hx
    simpa using fun hc => hdisj hc hx
  rw [h1, h2, List.nil_append]

/-- On a duplicate-free queue, removing the claimed prefix (`markSynced`)
leaves exactly the queue's tail beyond the claimed page. -/
lemma filter_not_mem_take (l : List String) (B : Nat) (h : l.Nodup) :
    l.filter (fun id => decide (id ∉ l.take B)) = l.drop B := by
  have hnd : (l.take B ++ l.drop B).Nodup := by rw [List.take_append_drop]; exact h
  obtain ⟨-, -, hdisj⟩ := List.nodup_append.mp hnd
  have hmain := filter_not_mem_append (l.take B) (l.drop B) hdisj
  rw [List.take_append_drop] at hmain
  exact hmain

/-- If every group flattens, the whole `prepared` array is built. -/
lemma buildPrepared_ok (rows : List IDbMemberSyncData) (attrs : List IMemberAttribute) :
    ∀ ids : List String,
    (∀ id ∈ ids, ∃ dd, prefixData (groupGet rows id) attrs = Except.ok dd) →
    ∃ p, buildPrepared rows attrs ids = Except.ok p := by
  intro ids
  induction ids with
  | nil => exact fun _ => ⟨[], rfl⟩
  | cons a rest ih =>
    intro h
    obtain ⟨dd, hdd⟩ := h a (List.mem_cons_self a rest)
    obtain ⟨tl, htl⟩ := ih fun id hm => h id (List.mem_cons_of_mem _ hm)
    exact ⟨(a, dd) :: tl, by rw [buildPrepared, hdd, htl]⟩

/-- Ceiling-division recurrence: one more page than for the remainder. -/
lemma pagesFor_rec (n B : Nat) (hB : 0 < B) (hn : 0 < n) :
    pagesFor n B = pagesFor (n - B) B + 1 := by
  unfold pagesFor
  rcases le_or_lt n B with h | h
  · have h0 : n - B = 0 := by omega
    rw [h0]
    have e1 : (0 + B - 1) / B = 0 := Nat.div_eq_of_lt (by omega)
    have e2 : (n + B - 1) / B = 1 := Nat.div_eq_of_lt_le (by omega) (by omega)
    rw [e1, e2]
  · have e1 : n + B - 1 = (n - 1 - B) + B + B := by omega
    have e2 : n - B + B - 1 = (n - 1 - B) + B := by omega
    rw [e1, e2, Nat.add_div_right _ hB, Nat.add_div_right _ hB]

/-- An empty queue: the loop performs one empty claim and stops. -/
lemma syncTenantLoop_nil (env : TenantEnv) (B fuel callIdx : Nat) :
    syncTenantLoop env B (fuel + 1) callIdx [] =
      ([TenantEv.claim []], Except.ok ()) := by
  rw [syncTenantLoop]
  simp

/-- One productive iteration of the resync loop: under the claim's store
preconditions and a successful bulk write, a non-empty queue yields the
claim, the bulk write, the mark, and the loop continues on the queue beyond
the claimed page. -/
lemma syncTenantLoop_cons (env : TenantEnv) (b fuel callIdx : Nat) (p : String)
    (ps : List String) (hnd : (p :: ps).Nodup)
    (hne : ∀ id ∈ p :: ps, env.data id ≠ [])
    (hid : ∀ id ∈ p :: ps, ∀ r ∈ env.data id, r.id = id)
    (hfl : ∀ id ∈ p :: ps, ∃ dd, prefixData (env.data id) env.attrs = Except.ok dd)
    (hbulk : env.bulkOk callIdx = true) :
    syncTenantLoop env (b + 1) (fuel + 1) callIdx (p :: ps) =
      (TenantEv.claim ((p :: ps).take (b + 1)) ::
        TenantEv.bulkIndex ((p :: ps).take (b + 1)) true ::
        TenantEv.markSynced ((p :: ps).take (b + 1)) ::
        (syncTenantLoop env (b + 1) fuel (callIdx + 1) ((p :: ps).drop (b + 1))).1,
        (syncTenantLoop env (b + 1) fuel (callIdx + 1) ((p :: ps).drop (b + 1))).2) := by
  have hsub : ∀ id ∈ (p :: ps).take (b + 1), id ∈ p :: ps :=
    fun id h => List.mem_of_mem_take h
  have hmidnd : ((p :: ps).take (b + 1)).Nodup :=
    (List.take_sublist _ _).nodup hnd
  have hdedup : dedupKeys (((p :: ps).take (b + 1)).flatMap env.data) =
      (p :: ps).take (b + 1) :=
    dedupKeys_flatMap env.data _ hmidnd (fun id h => hne id (hsub id h))
      (fun id h => hid id (hsub id h))
  have hgroups := groupGet_flatMap env.data ((p :: ps).take (b + 1)) hmidnd
    (fun id h => hid id (hsub id h))
  obtain ⟨pr, hpr⟩ := buildPrepared_ok (((p :: ps).take (b + 1)).flatMap env.data)
    env.attrs ((p :: ps).take (b + 1))
    (fun id hm => by rw [hgroups id hm]; exact hfl id (hsub id hm))
  have hne1 : ¬(((p :: ps).take (b + 1)).isEmpty = true) := by
    rw [List.take_succ_cons]
    simp
  have hfilter : (p :: ps).filter (fun id => decide (id ∉ (p :: ps).take (b + 1))) =
      (p :: ps).drop (b + 1) := filter_not_mem_take _ _ hnd
  rw [syncTenantLoop]
  simp only [getMemberData, hdedup, hpr, hfilter, if_neg hne1, hbulk,
    eq_self_iff_true, if_true]

/-- The resync loop, under the claim's preconditions: the run ends
`Except.ok`, the number of non-empty claims equals `ceil (count / B)`, and
there is exactly one further (empty) claim — the loop's sole termination
condition. -/
lemma syncTenantLoop_pages (env : TenantEnv) (B : Nat) (hB : 0 < B)
    (hbulk : ∀ n, env.bulkOk n = true) :
    ∀ (fuel : Nat) (pending : List String) (callIdx : Nat), pending.Nodup →
    (∀ id ∈ pending, env.data id ≠ []) →
    (∀ id ∈ pending, ∀ r ∈ env.data id, r.id = id) →
    (∀ id ∈ pending, ∃ dd, prefixData (env.data id) env.attrs = Except.ok dd) →
    pending.length < fuel →
    (syncTenantLoop env B fuel callIdx pending).2 = Except.ok () ∧
    nonEmptyClaimCount (syncTenantLoop env B fuel callIdx pending).1 =
      pagesFor pending.length B ∧
    claimCount (syncTenantLoop env B fuel callIdx pending).1 =
      pagesFor pending.length B + 1 := by
  intro fuel
  induction fuel with
  | zero => intro pending callIdx _ _ _ _ hlen; omega
  | succ fuel ih =>
    intro pending callIdx hnd hne hid hfl hlen
    cases pending with
    | nil =>
      rw [syncTenantLoop_nil]
      refine ⟨rfl, ?_, ?_⟩
      · simp [nonEmptyClaimCount, List.countP_cons, isNonEmptyClaim, pagesFor,
          Nat.div_eq_of_lt (show B - 1 < B by omega)]
      · simp [claimCount, List.countP_cons, isClaim, pagesFor,
          Nat.div_eq_of_lt (show B - 1 < B by omega)]
    | cons p ps =>
      obtain ⟨b, rfl⟩ : ∃ b, B = b + 1 := ⟨B - 1, by omega⟩
      rw [syncTenantLoop_cons env b fuel callIdx p ps hnd hne hid hfl (hbulk callIdx)]
      have hdsub : ∀ id ∈ (p :: ps).drop (b + 1), id ∈ p :: ps :=
        fun id h => List.mem_of_mem_drop h
      have hlen2 : ((p :: ps).drop (b + 1)).length < fuel := by
        rw [List.length_drop]
        simp only [List.length_cons] at hlen ⊢
        omega
      obtain ⟨ih1, ih2, ih3⟩ := ih ((p :: ps).drop (b + 1)) (callIdx + 1)
        ((List.drop_sublist _ _).nodup hnd)
        (fun id h => hne id (hdsub id h))
        (fun id h => hid id (hdsub id h))
        (fun id h => hfl id (hdsub id h)) hlen2
      have hrec : pagesFor (p :: ps).length (b + 1) =
          pagesFor ((p :: ps).length - (b + 1)) (b + 1) + 1 :=
        pagesFor_rec _ _ (by omega) (by simp)
      have htknd : (((p :: ps).take (b + 1)).isEmpty = false) := by
        rw [List.take_succ_cons]; rfl
      refine ⟨ih1, ?_, ?_⟩
      · simp only [nonEmptyClaimCount, List.countP_cons, isNonEmptyClaim, htknd] at ih2 ⊢
        rw [List.length_drop] at ih2
        rw [hrec, ← ih2]
        simp
      · simp only [claimCount, List.countP_cons, isClaim] at ih3 ⊢
        rw [List.length_drop] at ih3
        rw [hrec, ← ih3]
        simp

/-- A store row for one test member id. -/
def mkTestRow (id : String) : IDbMemberSyncData :=
  { mkTestMember [] with id := id }

/-- A healthy test store: every id has exactly one snapshot row carrying its
own id, the schema is empty, and every bulk write succeeds. -/
def testTenantEnv : TenantEnv :=
  { data := fun id => [mkTestRow id]
    attrs := []
    bulkOk := fun _ => true }

/-- C6: under the claim's precondition (every claimed id has snapshots and
is marked synced — modelled as: distinct pending ids, each with at least one
snapshot row carrying its own id, each flattening successfully, every bulk
write succeeding), a full resync with positive batch size `B` ends
`Except.ok`, performs exactly `ceil (count / B)` non-empty claims, and
performs exactly one more claim — the final empty one, the loop's sole
termination condition, so a claim returning fewer than `B` but more than
zero ids never ends the loop. -/
theorem resync_pages (env : TenantEnv) (allIds currentPending : List String) (B : Nat)
    (hB : 0 < B) (hnd : allIds.Nodup)
    (hne : ∀ id ∈ allIds, env.data id ≠ [])
    (hid : ∀ id ∈ allIds, ∀ r ∈ env.data id, r.id = id)
    (hfl : ∀ id ∈ allIds, ∃ dd, prefixData (env.data id) env.attrs = Except.ok dd)
    (hbulk : ∀ n, env.bulkOk n = true) :
    (syncTenantMembers env allIds currentPending true B).2 = Except.ok () ∧
    nonEmptyClaimCount (syncTenantMembers env allIds currentPending true B).1 =
      pagesFor allIds.length B ∧
    claimCount (syncTenantMembers env allIds currentPending true B).1 =
      pagesFor allIds.length B + 1 :=
  syncTenantLoop_pages env B hB hbulk (allIds.length + 1) allIds 0 hnd hne hid hfl
    (by omega)

/-- C6 witness: three pending ids, batch size two — the run succeeds with
two non-empty claims (`ceil (3 / 2)`) and one final empty claim. -/
theorem resync_pages_witness :
    (syncTenantMembers testTenantEnv ["a", "b", "c"] [] true 2).2 = Except.ok () ∧
    nonEmptyClaimCount (syncTenantMembers testTenantEnv ["a", "b", "c"] [] true 2).1 = 2 ∧
    claimCount (syncTenantMembers testTenantEnv ["a", "b", "c"] [] true 2).1 = 3 := by
  have h := resync_pages testTenantEnv ["a", "b", "c"] [] 2 (by omega) (by decide)
    (fun id _ => by simp [testTenantEnv])
    (fun id _ r hr => by rw [List.mem_singleton.mp hr]; rfl)
    (fun id _ => ⟨_, rfl⟩)
    (fun n => rfl)
  refine ⟨h.1, ?_, ?_⟩
  · rw [h.2.1]; rfl
  · rw [h.2.2]; rfl

/-- Empty tenant trace satisfies the ordering discipline. -/
lemma mfw_nil : marksFollowWrites [] = true := rfl

/-- A claim event is skipped by the ordering predicate. -/
lemma mfw_claim (ids : List String) (tr : List TenantEv) :
    marksFollowWrites (TenantEv.claim ids :: tr) = marksFollowWrites tr := rfl

/-- A successful bulk write immediately followed by a mark of the same ids
is the accepted pair. -/
lemma mfw_bulk_true_mark (ids ids2 : List String) (tr : List TenantEv) :
    marksFollowWrites (TenantEv.bulkIndex ids true :: TenantEv.markSynced ids2 :: tr) =
      (ids2 == ids && marksFollowWrites tr) := rfl

/-- A failed bulk write is skipped by the ordering predicate. -/
lemma mfw_bulk_false (ids : List String) (tr : List TenantEv) :
    marksFollowWrites (TenantEv.bulkIndex ids false :: tr) = marksFollowWrites tr := rfl

/-- Every key produced by grouping comes from some row. -/
lemma dedupKeys_mem :
    ∀ (n : Nat) (rows : List IDbMemberSyncData), rows.length ≤ n →
    ∀ x ∈ dedupKeys rows, ∃ r ∈ rows, r.id = x := by
  intro n
  induction n with
  | zero =>
    intro rows hl x hx
    cases rows with
    | nil => rw [dedupKeys] at hx; cases hx
    | cons r rest => simp at hl
  | succ n ihn =>
    intro rows hl x hx
    cases rows with
    | nil => rw [dedupKeys] at hx; cases hx
    | cons r rest =>
      rw [dedupKeys] at hx
      rcases List.mem_cons.mp hx with rfl | hx2
      · exact ⟨r, List.mem_cons_self _ _, rfl⟩
      · have hlen : (rest.filter fun x => decide (x.id ≠ r.id)).length ≤ n := by
          have := List.length_filter_le (fun x => decide (x.id ≠ r.id)) rest
          simp only [List.length_cons] at hl
          omega
        obtain ⟨r2, hr2, hr2id⟩ := ihn _ hlen x hx2
        exact ⟨r2, List.mem_cons_of_mem _ (List.mem_filter.mp hr2).1, hr2id⟩

/-- Every id carried by a bulk or mark event of a resync trace is drawn from
the pending queue at the start of the run, and such an event never carries
an empty id list (store-consistency hypothesis: rows carry their own id). -/
lemma syncTenantLoop_event_ids (env : TenantEnv) (B : Nat)
    (hstore : ∀ id, ∀ r ∈ env.data id, r.id = id) :
    ∀ (fuel callIdx : Nat) (pending ids : List String) (b : Bool),
    (TenantEv.bulkIndex ids b ∈ (syncTenantLoop env B fuel callIdx pending).1 ∨
      TenantEv.markSynced ids ∈ (syncTenantLoop env B fuel callIdx pending).1) →
    ids ≠ [] ∧ ∀ x ∈ ids, x ∈ pending := by
  intro fuel
  induction fuel with
  | zero =>
    intro callIdx pending ids b h
    rw [syncTenantLoop] at h
    simp at h
  | succ fuel ih =>
    intro callIdx pending ids b h
    rw [syncTenantLoop] at h
    have hids_fact : ∀ x ∈ dedupKeys (getMemberData env (pending.take B)), x ∈ pending := by
      intro x hx
      obtain ⟨r, hr, hrid⟩ := dedupKeys_mem _ _ (Nat.le_refl _) x hx
      obtain ⟨id0, hid0, hrmem⟩ := List.mem_flatMap.mp hr
      have hx_eq : x = id0 := by rw [← hrid]; exact hstore id0 r hrmem
      exact List.mem_of_mem_take (by rw [hx_eq]; exact hid0)
    split at h
    · simp at h
    · split at h
      · simp at h
        exact ih callIdx pending ids b h
      · rename_i hde
        have hne0 : dedupKeys (getMemberData env (pending.take B)) ≠ [] := by
          intro he
          exact hde (by rw [he]; rfl)
        split at h
        · simp at h
        · split at h
          · simp at h
            rcases h with (⟨rfl, rfl⟩ | hb) | (rfl | hm)
            · exact ⟨hne0, hids_fact⟩
            · obtain ⟨h1, h2⟩ := ih _ _ ids b (Or.inl hb)
              exact ⟨h1, fun x hx => (List.mem_filter.mp (h2 x hx)).1⟩
            · exact ⟨hne0, hids_fact⟩
            · obtain ⟨h1, h2⟩ := ih _ _ ids b (Or.inr hm)
              exact ⟨h1, fun x hx => (List.mem_filter.mp (h2 x hx)).1⟩
          · simp at h
            obtain ⟨rfl, rfl⟩ := h
            exact ⟨hne0, hids_fact⟩

/-- The four possible shapes of one iteration of the resync loop: stop on
an empty claim (or abort on a flattening error), continue unchanged after a
data-less batch, a successful write-mark iteration, or an aborting bulk
failure. -/
lemma syncTenantLoop_cases (env : TenantEnv) (B fuel callIdx : Nat) (pending : List String) :
    (syncTenantLoop env B (fuel + 1) callIdx pending).1 = [TenantEv.claim (pending.take B)] ∨
    ((syncTenantLoop env B (fuel + 1) callIdx pending).1 =
      TenantEv.claim (pending.take B) :: (syncTenantLoop env B fuel callIdx pending).1) ∨
    (dedupKeys (getMemberData env (pending.take B)) ≠ [] ∧
      (syncTenantLoop env B (fuel + 1) callIdx pending).1 =
      TenantEv.claim (pending.take B) ::
        TenantEv.bulkIndex (dedupKeys (getMemberData env (pending.take B))) true ::
        TenantEv.markSynced (dedupKeys (getMemberData env (pending.take B))) ::
        (syncTenantLoop env B fuel (callIdx + 1) (pending.filter fun id =>
          decide (id ∉ dedupKeys (getMemberData env (pending.take B))))).1) ∨
    (dedupKeys (getMemberData env (pending.take B)) ≠ [] ∧
      (syncTenantLoop env B (fuel + 1) callIdx pending).1 =
      [TenantEv.claim (pending.take B),
        TenantEv.bulkIndex (dedupKeys (getMemberData env (pending.take B))) false]) := by
  rw [syncTenantLoop]
  split
  · exact Or.inl rfl
  · split
    · exact Or.inr (Or.inl rfl)
    · rename_i hde
      have hne0 : dedupKeys (getMemberData env (pending.take B)) ≠ [] := by
        intro he
        exact hde (by rw [he]; rfl)
      split
      · exact Or.inl rfl
      · split
        · exact Or.inr (Or.inr (Or.inl ⟨hne0, rfl⟩))
        · exact Or.inr (Or.inr (Or.inr ⟨hne0, rfl⟩))

/-- In every tenant-resync trace, a `markSynced` appears only immediately
after a successful bulk write of the same ids. -/
lemma syncTenantLoop_marks_follow (env : TenantEnv) (B : Nat) :
    ∀ (fuel callIdx : Nat) (pending : List String),
    marksFollowWrites (syncTenantLoop env B fuel callIdx pending).1 = true := by
  intro fuel
  induction fuel with
  | zero =>
    intro callIdx pending
    rw [syncTenantLoop]
    rfl
  | succ fuel ih =>
    intro callIdx pending
    rcases syncTenantLoop_cases env B fuel callIdx pending with hsh | hsh | ⟨-, hsh⟩ | ⟨-, hsh⟩
    · rw [hsh]; rfl
    · rw [hsh, mfw_claim]; exact ih _ _
    · rw [hsh, mfw_claim, mfw_bulk_true_mark, beq_self_eq_true, Bool.true_and]
      exact ih _ _
    · rw [hsh, mfw_claim, mfw_bulk_false]; rfl

/-- A tenant-resync run in which a bulk write for some ids failed never
contains a `markSynced` for those ids: the failure aborts the run before
the mark, and earlier batches are disjoint from the failing one
(store-consistency hypothesis: rows carry their own id). -/
lemma syncTenantLoop_fail_no_mark (env : TenantEnv) (B : Nat)
    (hstore : ∀ id, ∀ r ∈ env.data id, r.id = id) :
    ∀ (fuel callIdx : Nat) (pending ids : List String),
    TenantEv.bulkIndex ids false ∈ (syncTenantLoop env B fuel callIdx pending).1 →
    TenantEv.markSynced ids ∉ (syncTenantLoop env B fuel callIdx pending).1 := by
  intro fuel
  induction fuel with
  | zero =>
    intro callIdx pending ids hb
    rw [syncTenantLoop] at hb
    simp at hb
  | succ fuel ih =>
    intro callIdx pending ids hb hm
    rcases syncTenantLoop_cases env B fuel callIdx pending with hsh | hsh | ⟨hne0, hsh⟩ | ⟨hne0, hsh⟩
    · rw [hsh] at hb; simp at hb
    · rw [hsh] at hb hm
      simp at hb hm
      exact ih callIdx pending ids hb hm
    · rw [hsh] at hb hm
      simp at hb hm
      rcases hm with rfl | hm
      · obtain ⟨-, hsub⟩ := syncTenantLoop_event_ids env B hstore fuel
          (callIdx + 1) _ _ false (Or.inl hb)
        obtain ⟨x, hx⟩ := List.exists_mem_of_ne_nil _ hne0
        have hxp := hsub x hx
        rw [List.mem_filter] at hxp
        simp at hxp
        exact hxp.2 hx
      · exact ih _ _ ids hb hm
    · rw [hsh] at hm
      simp at hm

/-- A fetch event is skipped by the member ordering predicate. -/
lemma mfwM_fetch (i : String) (n : Nat) (tr : List MemberEv) :
    marksFollowWritesM (MemberEv.fetchAttempt i n :: tr) = marksFollowWritesM tr := rfl

/-- A wait event is skipped by the member ordering predicate. -/
lemma mfwM_wait (ms : Nat) (tr : List MemberEv) :
    marksFollowWritesM (MemberEv.waitDelay ms :: tr) = marksFollowWritesM tr := rfl

/-- A successful write immediately followed by a mark of the same id is the
accepted pair. -/
lemma mfwM_write_true_mark (i : String) (doc : MemberDoc) (ids : List String)
    (tr : List MemberEv) :
    marksFollowWritesM (MemberEv.indexWrite i doc true :: MemberEv.markSynced ids :: tr) =
      (ids == [i] && marksFollowWritesM tr) := rfl

/-- A failed write is skipped by the member ordering predicate. -/
lemma mfwM_write_false (i : String) (doc : MemberDoc) (tr : List MemberEv) :
    marksFollowWritesM (MemberEv.indexWrite i doc false :: tr) = marksFollowWritesM tr := rfl

/-- The five possible shapes of one `syncMember` recursion step: flattening
error, successful write and mark, failed write, retry after the fixed
delay, or retry-budget exhaustion and delete. -/
lemma syncMemberRun_cases (fetch : Nat → List IDbMemberSyncData)
    (attrs : List IMemberAttribute) (writeOk : Bool) (id : String) (retries : Nat) :
    (syncMemberRun fetch attrs writeOk id retries).1 = [MemberEv.fetchAttempt id retries] ∨
    (∃ doc, (syncMemberRun fetch attrs writeOk id retries).1 =
      [MemberEv.fetchAttempt id retries, MemberEv.indexWrite id doc true,
        MemberEv.markSynced [id]]) ∨
    (∃ doc, (syncMemberRun fetch attrs writeOk id retries).1 =
      [MemberEv.fetchAttempt id retries, MemberEv.indexWrite id doc false]) ∨
    (retries < 5 ∧ (syncMemberRun fetch attrs writeOk id retries).1 =
      MemberEv.fetchAttempt id retries :: MemberEv.waitDelay 100 ::
        (syncMemberRun fetch attrs writeOk id (retries + 1)).1) ∨
    ((syncMemberRun fetch attrs writeOk id retries).1 =
      [MemberEv.fetchAttempt id retries, MemberEv.removeFromIndex id]) := by
  rw [syncMemberRun]
  split
  · split
    · exact Or.inl rfl
    · rename_i doc hdoc
      split
      · exact Or.inr (Or.inl ⟨doc, rfl⟩)
      · exact Or.inr (Or.inr (Or.inl ⟨doc, rfl⟩))
  · split
    · rename_i h5
      exact Or.inr (Or.inr (Or.inr (Or.inl ⟨h5, rfl⟩)))
    · exact Or.inr (Or.inr (Or.inr (Or.inr rfl)))

/-- Member-sync traces obey the write-then-mark discipline, and after a
failed write no id is ever marked (the failure aborts the call). -/
lemma syncMemberRun_ordering (fetch : Nat → List IDbMemberSyncData)
    (attrs : List IMemberAttribute) (writeOk : Bool) (id : String) :
    ∀ (retries : Nat),
    marksFollowWritesM (syncMemberRun fetch attrs writeOk id retries).1 = true ∧
    (∀ doc ids, MemberEv.indexWrite id doc false ∈
        (syncMemberRun fetch attrs writeOk id retries).1 →
      MemberEv.markSynced ids ∉ (syncMemberRun fetch attrs writeOk id retries).1) := by
  have main : ∀ (n retries : Nat), 5 - retries ≤ n →
      marksFollowWritesM (syncMemberRun fetch attrs writeOk id retries).1 = true ∧
      (∀ doc ids, MemberEv.indexWrite id doc false ∈
          (syncMemberRun fetch attrs writeOk id retries).1 →
        MemberEv.markSynced ids ∉ (syncMemberRun fetch attrs writeOk id retries).1) := by
    intro n
    induction n with
    | zero =>
      intro retries hn
      rcases syncMemberRun_cases fetch attrs writeOk id retries with
        hsh | ⟨doc, hsh⟩ | ⟨doc, hsh⟩ | ⟨h5, hsh⟩ | hsh
      · exact ⟨by rw [hsh]; rfl, fun doc ids hw => by rw [hsh] at hw; simp at hw⟩
      · refine ⟨?_, fun doc2 ids hw => by rw [hsh] at hw; simp at hw⟩
        rw [hsh, mfwM_fetch, mfwM_write_true_mark, beq_self_eq_true, Bool.true_and]
        rfl
      · refine ⟨by rw [hsh, mfwM_fetch, mfwM_write_false]; rfl, ?_⟩
        intro doc2 ids hw hm
        rw [hsh] at hm
        simp at hm
      · omega
      · exact ⟨by rw [hsh]; rfl, fun doc ids hw => by rw [hsh] at hw; simp at hw⟩
    | succ n ihn =>
      intro retries hn
      rcases syncMemberRun_cases fetch attrs writeOk id retries with
        hsh | ⟨doc, hsh⟩ | ⟨doc, hsh⟩ | ⟨h5, hsh⟩ | hsh
      · exact ⟨by rw [hsh]; rfl, fun doc ids hw => by rw [hsh] at hw; simp at hw⟩
      · refine ⟨?_, fun doc2 ids hw => by rw [hsh] at hw; simp at hw⟩
        rw [hsh, mfwM_fetch, mfwM_write_true_mark, beq_self_eq_true, Bool.true_and]
        rfl
      · refine ⟨by rw [hsh, mfwM_fetch, mfwM_write_false]; rfl, ?_⟩
        intro doc2 ids hw hm
        rw [hsh] at hm
        simp at hm
      · obtain ⟨ih1, ih2⟩ := ihn (retries + 1) (by omega)
        refine ⟨by rw [hsh, mfwM_fetch, mfwM_wait]; exact ih1, ?_⟩
        intro doc ids hw hm
        rw [hsh] at hw hm
        simp at hw hm
        exact ih2 doc ids hw hm
      · exact ⟨by rw [hsh]; rfl, fun doc ids hw => by rw [hsh] at hw; simp at hw⟩
  intro retries
  exact main (5 - retries) retries (Nat.le_refl _)

/-- One aborting iteration of the resync loop: under the store
preconditions, a failed bulk write ends the run right after the bulk event —
no mark, no further claims. -/
lemma syncTenantLoop_cons_fail (env : TenantEnv) (b fuel callIdx : Nat) (p : String)
    (ps : List String) (hnd : (p :: ps).Nodup)
    (hne : ∀ id ∈ p :: ps, env.data id ≠ [])
    (hid : ∀ id ∈ p :: ps, ∀ r ∈ env.data id, r.id = id)
    (hfl : ∀ id ∈ p :: ps, ∃ dd, prefixData (env.data id) env.attrs = Except.ok dd)
    (hbulk : env.bulkOk callIdx = false) :
    syncTenantLoop env (b + 1) (fuel + 1) callIdx (p :: ps) =
      ([TenantEv.claim ((p :: ps).take (b + 1)),
        TenantEv.bulkIndex ((p :: ps).take (b + 1)) false],
        Except.error "bulk index failed") := by
  have hsub : ∀ id ∈ (p :: ps).take (b + 1), id ∈ p :: ps :=
    fun id h => List.mem_of_mem_take h
  have hmidnd : ((p :: ps).take (b + 1)).Nodup :=
    (List.take_sublist _ _).nodup hnd
  have hdedup : dedupKeys (((p :: ps).take (b + 1)).flatMap env.data) =
      (p :: ps).take (b + 1) :=
    dedupKeys_flatMap env.data _ hmidnd (fun id h => hne id (hsub id h))
      (fun id h => hid id (hsub id h))
  have hgroups := groupGet_flatMap env.data ((p :: ps).take (b + 1)) hmidnd
    (fun id h => hid id (hsub id h))
  obtain ⟨pr, hpr⟩ := buildPrepared_ok (((p :: ps).take (b + 1)).flatMap env.data)
    env.attrs ((p :: ps).take (b + 1))
    (fun id hm => by rw [hgroups id hm]; exact hfl id (hsub id hm))
  have hne1 : ¬(((p :: ps).take (b + 1)).isEmpty = true) := by
    rw [List.take_succ_cons]
    simp
  rw [syncTenantLoop]
  simp only [getMemberData, hdedup, hpr, if_neg hne1, hbulk, Bool.false_eq_true, if_false]

/-- C9: in every sync run, a `markSynced` for a set of ids occurs only
immediately after the successful index write (bulk or single) for those same
ids; and when a write fails, those ids are never marked synced in that run —
for the resync loop this needs the store-consistency hypothesis that every
snapshot row carries the id it was fetched for. -/
theorem write_then_mark_ordering :
    (∀ (env : TenantEnv) (B fuel callIdx : Nat) (pending : List String),
      marksFollowWrites (syncTenantLoop env B fuel callIdx pending).1 = true) ∧
    (∀ (env : TenantEnv) (B : Nat), (∀ id, ∀ r ∈ env.data id, r.id = id) →
      ∀ (fuel callIdx : Nat) (pending ids : List String),
      TenantEv.bulkIndex ids false ∈ (syncTenantLoop env B fuel callIdx pending).1 →
      TenantEv.markSynced ids ∉ (syncTenantLoop env B fuel callIdx pending).1) ∧
    (∀ (fetch : Nat → List IDbMemberSyncData) (attrs : List IMemberAttribute)
      (writeOk : Bool) (id : String) (retries : Nat),
      marksFollowWritesM (syncMemberRun fetch attrs writeOk id retries).1 = true) ∧
    (∀ (fetch : Nat → List IDbMemberSyncData) (attrs : List IMemberAttribute)
      (writeOk : Bool) (id : String) (retries : Nat) (doc : MemberDoc) (ids : List String),
      MemberEv.indexWrite id doc false ∈ (syncMemberRun fetch attrs writeOk id retries).1 →
      MemberEv.markSynced ids ∉ (syncMemberRun fetch attrs writeOk id retries).1) :=
  ⟨fun env B fuel callIdx pending => syncTenantLoop_marks_follow env B fuel callIdx pending,
    fun env B hstore fuel callIdx pending ids =>
      syncTenantLoop_fail_no_mark env B hstore fuel callIdx pending ids,
    fun fetch attrs writeOk id retries => (syncMemberRun_ordering fetch attrs writeOk id retries).1,
    fun fetch attrs writeOk id retries doc ids hw =>
      (syncMemberRun_ordering fetch attrs writeOk id retries).2 doc ids hw⟩

/-- A test store whose bulk writes always fail. -/
def failBulkEnv : TenantEnv :=
  { data := fun id => [mkTestRow id]
    attrs := []
    bulkOk := fun _ => false }

/-- C9 witness: the ordering predicate holds on a concrete healthy run; on a
concrete run whose only bulk write fails, the failing batch is never marked;
and likewise for a single-member sync whose write fails. -/
theorem write_then_mark_ordering_witness :
    marksFollowWrites (syncTenantLoop testTenantEnv 2 4 0 ["a", "b", "c"]).1 = true ∧
    TenantEv.markSynced ["a"] ∉ (syncTenantLoop failBulkEnv 2 2 0 ["a"]).1 ∧
    marksFollowWritesM (syncMemberRun (fun _ => [mkTestMember []]) [] true "m1" 0).1 = true ∧
    MemberEv.markSynced ["m1"] ∉
      (syncMemberRun (fun _ => [mkTestMember []]) [] false "m1" 0).1 := by
  obtain ⟨d0, hd0⟩ : ∃ d, prefixData [mkTestMember []] [] = Except.ok d := ⟨_, rfl⟩
  have hstep := syncTenantLoop_cons_fail failBulkEnv 1 1 0 "a" [] (by decide)
    (fun id _ => by simp [failBulkEnv])
    (fun id _ r hr => by rw [List.mem_singleton.mp hr]; rfl)
    (fun id _ => ⟨_, rfl⟩) rfl
  have hmem : TenantEv.bulkIndex ["a"] false ∈ (syncTenantLoop failBulkEnv 2 2 0 ["a"]).1 := by
    rw [hstep]
    exact List.mem_cons_of_mem _ (List.mem_cons_self _ _)
  have htr : syncMemberRun (fun _ => [mkTestMember []]) [] false "m1" 0 =
      ([MemberEv.fetchAttempt "m1" 0, MemberEv.indexWrite "m1" d0 false],
        Except.error "index write failed") := by
    rw [syncMemberRun]
    simp [hd0]
  have hmem2 : MemberEv.indexWrite "m1" d0 false ∈
      (syncMemberRun (fun _ => [mkTestMember []]) [] false "m1" 0).1 := by
    rw [htr]
    exact List.mem_cons_of_mem _ (List.mem_cons_self _ _)
  refine ⟨write_then_mark_ordering.1 testTenantEnv 2 4 0 ["a", "b", "c"], ?_, ?_, ?_⟩
  · exact write_then_mark_ordering.2.1 failBulkEnv 2
      (fun id r hr => by rw [List.mem_singleton.mp hr]; rfl) 2 0 ["a"] ["a"] hmem
  · exact write_then_mark_ordering.2.2.1 (fun _ => [mkTestMember []]) [] true "m1" 0
  · exact write_then_mark_ordering.2.2.2 (fun _ => [mkTestMember []]) [] false "m1" 0
      d0 ["m1"] hmem2

/-- Every page hit belongs to the index, to the tenant, and lies strictly
after the cursor. -/
lemma searchPage_subset {Id : Type} (docs : List (IndexEntry Id)) (tenant : String)
    (cursor : Option Nat) (n : Nat) :
    ∀ d ∈ searchPage docs tenant cursor n,
      d ∈ docs ∧ d.tenant = tenant ∧ afterCursor cursor d.key = true := by
  intro d hd
  have h1 : d ∈ docs.filter fun d => decide (d.tenant = tenant) && afterCursor cursor d.key :=
    (List.perm_insertionSort keyLE _).mem_iff.mp (List.mem_of_mem_take hd)
  obtain ⟨hmem, hcond⟩ := List.mem_filter.mp h1
  obtain ⟨hct, hca⟩ := Bool.and_eq_true_iff.mp hcond
  exact ⟨hmem, of_decide_eq_true hct, hca⟩

/-- Pages are sorted ascending by the join-timestamp key. -/
lemma searchPage_sorted {Id : Type} (docs : List (IndexEntry Id)) (tenant : String)
    (cursor : Option Nat) (n : Nat) :
    List.Sorted keyLE (searchPage docs tenant cursor n) :=
  List.Pairwise.sublist (List.take_sublist _ _) (List.sorted_insertionSort keyLE _)

/-- In a sorted list, every element's key is bounded by the last one's. -/
lemma sorted_le_getLast {Id : Type} :
    ∀ (l : List (IndexEntry Id)), List.Sorted keyLE l →
    ∀ (h : l ≠ []), ∀ d ∈ l, d.key ≤ (l.getLast h).key := by
  intro l
  induction l with
  | nil => intro _ h; cases h rfl
  | cons x t ih =>
    intro hs h d hd
    cases t with
    | nil =>
      rcases List.mem_singleton.mp hd with rfl
      exact Nat.le_refl _
    | cons y t2 =>
      rw [List.getLast_cons (by simp : y :: t2 ≠ [])]
      rcases List.mem_cons.mp hd with rfl | hd2
      · exact (List.pairwise_cons.mp hs).1 _ (List.getLast_mem (by simp))
      · exact ih (List.pairwise_cons.mp hs).2 (by simp) d hd2

/-- Pointwise-weaker predicates count strictly fewer matches when some list
element witnesses the gap. -/
lemma countP_lt_of_pointwise {α : Type} (p q : α → Bool) :
    ∀ (l : List α), (∀ a ∈ l, p a = true → q a = true) →
    ∀ x ∈ l, q x = true → p x = false → l.countP p < l.countP q := by
  intro l
  induction l with
  | nil => intro _ x hx; cases hx
  | cons a t ih =>
    intro hpt x hx hqx hpx
    rcases List.mem_cons.mp hx with rfl | hx2
    · rw [List.countP_cons, List.countP_cons, hpx, hqx]
      have := List.countP_mono_left (l := t) (p := p) (q := q)
        (fun b hb => hpt b (List.mem_cons_of_mem _ hb))
      simp
      omega
    · have h1 := ih (fun b hb => hpt b (List.mem_cons_of_mem _ hb)) x hx2 hqx hpx
      rw [List.countP_cons, List.countP_cons]
      have h2 : (if p a = true then 1 else 0) ≤ (if q a = true then 1 else 0) := by
        by_cases hpa : p a = true
        · simp [hpa, hpt a (List.mem_cons_self a t) hpa]
        · simp [hpa]
      omega

/-- The orphan computation (`ids` minus the store's existing subset) is a
plain filter on non-existence. -/
lemma toRemoveIds_eq {Id : Type} [DecidableEq Id] (existing : Id → Bool) (ids : List Id) :
    toRemoveIds existing ids = ids.filter fun id => !existing id := by
  rw [toRemoveIds]
  apply List.filter_congr
  intro id hid
  by_cases h : existing id = true
  · have hmem : id ∈ ids.filter fun id2 => existing id2 := List.mem_filter.mpr ⟨hid, h⟩
    simp [hmem, h]
  · have hmem : id ∉ ids.filter fun id2 => existing id2 :=
      fun hc => h (List.mem_filter.mp hc).2
    simp [hmem, Bool.eq_false_iff.mpr h]

/-- Removing a list of ids one at a time equals one filter on all of them. -/
lemma foldl_remove_eq_filter {Id : Type} [DecidableEq Id] :
    ∀ (rem : List Id) (docs : List (IndexEntry Id)),
    rem.foldl (fun ds id => ds.filter fun d => decide (d.id ≠ id)) docs =
      docs.filter fun d => decide (d.id ∉ rem) := by
  intro rem
  induction rem with
  | nil =>
    intro docs
    rw [List.foldl_nil]
    symm
    apply List.filter_eq_self.mpr
    intro a _
    simp
  | cons a t ih =>
    intro docs
    rw [List.foldl_cons, ih, List.filter_filter]
    apply List.filter_congr
    intro d _
    by_cases h1 : d.id = a
    · simp [h1]
    · by_cases h2 : d.id ∈ t <;> simp [h1, h2]

/-- Coverage of a page: when the tenant's sort keys are duplicate-free,
every tenant document beyond the cursor whose key does not exceed the
page's last key is on the page.  (With duplicate keys spanning the page
boundary this fails — the documented cursor approximation.) -/
lemma searchPage_coverage {Id : Type} (docs : List (IndexEntry Id)) (tenant : String)
    (cursor : Option Nat)
    (hkeys : ((docs.filter fun d => decide (d.tenant = tenant)).map fun d => d.key).Nodup)
    (hne : searchPage docs tenant cursor 500 ≠ [])
    (d : IndexEntry Id) (hd : d ∈ docs) (ht : d.tenant = tenant)
    (hc : afterCursor cursor d.key = true)
    (hkle : d.key ≤ ((searchPage docs tenant cursor 500).getLast hne).key) :
    d ∈ searchPage docs tenant cursor 500 := by
  by_contra hnp
  set F := docs.filter (fun d => decide (d.tenant = tenant) && afterCursor cursor d.key)
    with hF
  set S := F.insertionSort keyLE with hS
  have hpage : searchPage docs tenant cursor 500 = S.take 500 := by
    rw [searchPage, hS, hF]
  have hdF : d ∈ F := by
    rw [hF]
    exact List.mem_filter.mpr ⟨hd, by simp [ht, hc]⟩
  have hdS : d ∈ S := (List.perm_insertionSort keyLE F).mem_iff.mpr hdF
  have hsplit : S.take 500 ++ S.drop 500 = S := List.take_append_drop 500 S
  have hddrop : d ∈ S.drop 500 := by
    rcases List.mem_append.mp (by rw [hsplit]; exact hdS) with h | h
    · exact absurd h (by rw [hpage] at hnp; exact hnp)
    · exact h
  have hFsub : List.Sublist F (docs.filter fun d => decide (d.tenant = tenant)) := by
    rw [hF]
    exact List.monotone_filter_right docs fun a ha => (Bool.and_eq_true_iff.mp ha).1
  have hkeysF : (F.map fun d => d.key).Nodup := (hFsub.map _).nodup hkeys
  have hkeysS : (S.map fun d => d.key).Nodup :=
    (((List.perm_insertionSort keyLE F).map _).nodup_iff).mpr hkeysF
  have hnodup_app : ((S.take 500).map (fun d => d.key) ++
      (S.drop 500).map (fun d => d.key)).Nodup := by
    rw [← List.map_append, hsplit]
    exact hkeysS
  obtain ⟨-, -, hdisj⟩ := List.nodup_append.mp hnodup_app
  have hlastmem : (searchPage docs tenant cursor 500).getLast hne ∈ S.take 500 := by
    rw [← hpage]
    exact List.getLast_mem hne
  have hpw : List.Pairwise keyLE (S.take 500 ++ S.drop 500) := by
    rw [hsplit]
    exact List.sorted_insertionSort keyLE F
  have hle : keyLE ((searchPage docs tenant cursor 500).getLast hne) d :=
    (List.pairwise_append.mp hpw).2.2 _ hlastmem _ hddrop
  have heq : d.key = ((searchPage docs tenant cursor 500).getLast hne).key :=
    Nat.le_antisymm hkle hle
  exact hdisj (List.mem_map_of_mem _ hlastmem) (heq ▸ List.mem_map_of_mem _ hddrop)

/-- Being after the cursor is upward closed in the sort key. -/
lemma afterCursor_trans (cursor : Option Nat) (k1 k2 : Nat)
    (h1 : afterCursor cursor k1 = true) (h2 : k1 < k2) : afterCursor cursor k2 = true := by
  cases cursor with
  | none => rfl
  | some c =>
    rw [afterCursor] at h1 ⊢
    exact decide_eq_true_eq.mpr (Nat.lt_trans (of_decide_eq_true h1) h2)

set_option maxHeartbeats 2000000 in
/-- The cleanup loop, on an index with distinct document ids and (for the
tenant) distinct sort keys, and with no orphans at or before the cursor:
it terminates with exactly the tenant's orphans removed — every other
document untouched — and every removed id was a tenant orphan. -/
lemma cleanupLoop_exact {Id : Type} [DecidableEq Id] (existing : Id → Bool)
    (tenant : String) :
    ∀ (fuel : Nat) (docs : List (IndexEntry Id)) (cursor : Option Nat),
    (docs.map fun d => d.id).Nodup →
    ((docs.filter fun d => decide (d.tenant = tenant)).map fun d => d.key).Nodup →
    (∀ d ∈ docs, d.tenant = tenant → afterCursor cursor d.key = false →
      existing d.id = true) →
    (docs.filter fun d => decide (d.tenant = tenant) && afterCursor cursor d.key).length <
      fuel →
    ∃ removed, cleanupLoop existing tenant fuel docs cursor =
        some (docs.filter fun d => !(decide (d.tenant = tenant) && !existing d.id),
          removed) ∧
      ∀ id ∈ removed, (∃ d ∈ docs, d.id = id ∧ d.tenant = tenant) ∧
        existing id = false := by
  intro fuel
  induction fuel with
  | zero => intro docs cursor _ _ _ hlen; omega
  | succ fuel ih =>
    intro docs cursor hids hkeys hclean hlen
    by_cases hpe : (searchPage docs tenant cursor 500).isEmpty = true
    · rw [cleanupLoop, if_pos hpe]
      refine ⟨[], ?_, by simp⟩
      have hall : ∀ d ∈ docs, (!(decide (d.tenant = tenant) && !existing d.id)) = true := by
        intro d hd
        by_cases ht : d.tenant = tenant
        · cases h2 : afterCursor cursor d.key with
          | false => simp [ht, hclean d hd ht h2]
          | true =>
            exfalso
            have hdF : d ∈ docs.filter
                (fun d => decide (d.tenant = tenant) && afterCursor cursor d.key) :=
              List.mem_filter.mpr ⟨hd, by simp [ht, h2]⟩
            have hFne : docs.filter
                (fun d => decide (d.tenant = tenant) && afterCursor cursor d.key) ≠ [] := by
              intro he
              rw [he] at hdF
              cases hdF
            have hSne : (docs.filter
                (fun d => decide (d.tenant = tenant) && afterCursor cursor d.key)).insertionSort
                  keyLE ≠ [] := by
              intro he
              exact hFne (List.Perm.eq_nil ((List.perm_insertionSort keyLE _).symm.trans
                (by rw [he])))
            have : searchPage docs tenant cursor 500 = [] := List.isEmpty_iff.mp hpe
            rw [searchPage] at this
            rcases List.take_eq_nil_iff.mp this with h | h
            · cases h
            · exact hSne h
        · simp [ht]
      rw [List.filter_eq_self.mpr hall]
    · have hne : searchPage docs tenant cursor 500 ≠ [] :=
        fun he => hpe (by rw [he]; rfl)
      have hfold := foldl_remove_eq_filter
        (toRemoveIds existing ((searchPage docs tenant cursor 500).map fun r => r.id)) docs
      have hcursor_eq : ((searchPage docs tenant cursor 500).getLast?).map (fun d => d.key) =
          some (((searchPage docs tenant cursor 500).getLast hne).key) := by
        rw [List.getLast?_eq_getLast _ hne]
        rfl
      have hrem_eq := toRemoveIds_eq existing
        ((searchPage docs tenant cursor 500).map fun r => r.id)
      have hsubset := searchPage_subset docs tenant cursor 500
      -- membership in the orphan list characterized on documents
      have hrem_mem : ∀ d ∈ docs,
          d.id ∈ toRemoveIds existing ((searchPage docs tenant cursor 500).map fun r => r.id) →
          d ∈ searchPage docs tenant cursor 500 ∧ existing d.id = false := by
        intro d hd hmem
        rw [hrem_eq] at hmem
        obtain ⟨hmem2, hex⟩ := List.mem_filter.mp hmem
        obtain ⟨pd, hpd, hpdid⟩ := List.mem_map.mp hmem2
        have hpd_docs : pd ∈ docs := (hsubset pd hpd).1
        have hpd_eq : pd = d :=
          List.inj_on_of_nodup_map hids hpd_docs hd hpdid
        rw [← hpd_eq]
        refine ⟨hpd, ?_⟩
        rw [← hpdid] at hex
        simpa using hex
      -- the post-removal index
      have hids2 : ((docs.filter fun d => decide (d.id ∉ toRemoveIds existing
          ((searchPage docs tenant cursor 500).map fun r => r.id))).map fun d => d.id).Nodup :=
        ((List.filter_sublist docs).map _).nodup hids
      have hkeys2 : (((docs.filter fun d => decide (d.id ∉ toRemoveIds existing
          ((searchPage docs tenant cursor 500).map fun r => r.id))).filter
            fun d => decide (d.tenant = tenant)).map fun d => d.key).Nodup :=
        (((List.filter_sublist docs).filter _).map _).nodup hkeys
      have hclean2 : ∀ d ∈ docs.filter fun d => decide (d.id ∉ toRemoveIds existing
          ((searchPage docs tenant cursor 500).map fun r => r.id)),
          d.tenant = tenant →
          afterCursor (some (((searchPage docs tenant cursor 500).getLast hne).key)) d.key =
            false →
          existing d.id = true := by
        intro d hd2 ht hf
        obtain ⟨hd, hnr⟩ := List.mem_filter.mp hd2
        have hkle : d.key ≤ ((searchPage docs tenant cursor 500).getLast hne).key := by
          rw [afterCursor] at hf
          exact Nat.le_of_not_lt (of_decide_eq_false hf)
        cases h2 : afterCursor cursor d.key with
        | false => exact hclean d hd ht h2
        | true =>
          by_contra hex
          have hexf : existing d.id = false := Bool.eq_false_iff.mpr hex
          have hdpage : d ∈ searchPage docs tenant cursor 500 :=
            searchPage_coverage docs tenant cursor hkeys hne d hd ht h2 hkle
          have : d.id ∈ toRemoveIds existing
              ((searchPage docs tenant cursor 500).map fun r => r.id) := by
            rw [hrem_eq]
            exact List.mem_filter.mpr ⟨List.mem_map_of_mem _ hdpage, by simp [hexf]⟩
          exact of_decide_eq_true hnr this
      have hlast_page := hsubset _ (List.getLast_mem hne)
      have hafter_last : afterCursor cursor
          (((searchPage docs tenant cursor 500).getLast hne).key) = true :=
        hlast_page.2.2
      have hlen2 : ((docs.filter fun d => decide (d.id ∉ toRemoveIds existing
          ((searchPage docs tenant cursor 500).map fun r => r.id))).filter
            fun d => decide (d.tenant = tenant) &&
              afterCursor (some (((searchPage docs tenant cursor 500).getLast hne).key))
                d.key).length < fuel := by
        rw [List.filter_filter, ← List.countP_eq_length_filter]
        have hmono : ∀ a ∈ docs,
            ((decide (a.tenant = tenant) &&
              afterCursor (some (((searchPage docs tenant cursor 500).getLast hne).key))
                a.key) &&
              decide (a.id ∉ toRemoveIds existing
                ((searchPage docs tenant cursor 500).map fun r => r.id))) = true →
            (decide (a.tenant = tenant) && afterCursor cursor a.key) = true := by
          intro a _ ha
          obtain ⟨ha1, -⟩ := Bool.and_eq_true_iff.mp ha
          obtain ⟨hat, haft⟩ := Bool.and_eq_true_iff.mp ha1
          rw [afterCursor] at haft
          have hKlt := of_decide_eq_true haft
          rw [hat, Bool.true_and]
          exact afterCursor_trans cursor _ _ hafter_last hKlt
        have hx := countP_lt_of_pointwise _ _ docs hmono
          ((searchPage docs tenant cursor 500).getLast hne) hlast_page.1
          (by simp [hlast_page.2.1, hafter_last])
          (by simp [afterCursor])
        rw [← List.countP_eq_length_filter] at hlen
        omega
      obtain ⟨rem2, hloop2, hsound2⟩ := ih
        (docs.filter fun d => decide (d.id ∉ toRemoveIds existing
          ((searchPage docs tenant cursor 500).map fun r => r.id)))
        (some (((searchPage docs tenant cursor 500).getLast hne).key))
        hids2 hkeys2 hclean2 hlen2
      have hfinal : (docs.filter fun d => decide (d.id ∉ toRemoveIds existing
            ((searchPage docs tenant cursor 500).map fun r => r.id))).filter
              (fun d => !(decide (d.tenant = tenant) && !existing d.id)) =
          docs.filter fun d => !(decide (d.tenant = tenant) && !existing d.id) := by
        rw [List.filter_filter]
        apply List.filter_congr
        intro d hd
        by_cases hdr : d.id ∈ toRemoveIds existing
            ((searchPage docs tenant cursor 500).map fun r => r.id)
        · obtain ⟨hdpage, hexf⟩ := hrem_mem d hd hdr
          have ht := (hsubset d hdpage).2.1
          simp [ht, hexf, hdr]
        · simp [hdr]
      refine ⟨toRemoveIds existing ((searchPage docs tenant cursor 500).map fun r => r.id) ++
        rem2, ?_, ?_⟩
      · rw [cleanupLoop, if_neg hpe, hfold, hcursor_eq, hloop2, hfinal]
      · intro id hidmem
        rcases List.mem_append.mp hidmem with h0 | h2
        · rw [hrem_eq] at h0
          obtain ⟨hmem2, hexb⟩ := List.mem_filter.mp h0
          obtain ⟨pd, hpd, hpdid⟩ := List.mem_map.mp hmem2
          refine ⟨⟨pd, (hsubset pd hpd).1, hpdid, (hsubset pd hpd).2.1⟩, ?_⟩
          simpa using hexb
        · obtain ⟨⟨d, hd, hdid, hdt⟩, hex⟩ := hsound2 id h2
          exact ⟨⟨d, (List.mem_filter.mp hd).1, hdid, hdt⟩, hex⟩

set_option maxRecDepth 100000 in
set_option maxHeartbeats 8000000 in
/-- C1 counterexample: with 501 tenant documents sharing one
`date_joinedAt` value, the first page returns 500 of them and the
strictly-after cursor (`search_after` on the page's last key) then skips
every remaining tied document: the 501st document is an orphan, yet the
pass removes nothing and leaves the index unchanged — refuting "removes
exactly the M orphan documents" for arbitrary indexes. -/
theorem cleanup_misses_orphan_on_tied_keys :
    cleanupMemberIndex (fun id : Nat => decide (id < 500)) ""
        ((List.range 501).map fun i => (⟨i, "", 0⟩ : IndexEntry Nat)) =
      some ((List.range 501).map fun i => (⟨i, "", 0⟩ : IndexEntry Nat), []) ∧
    (⟨500, "", 0⟩ : IndexEntry Nat) ∈
      (List.range 501).map (fun i => (⟨i, "", 0⟩ : IndexEntry Nat)) ∧
    decide ((500 : Nat) < 500) = false := by
  refine ⟨rfl, ?_, rfl⟩
  exact List.mem_map_of_mem _ (List.mem_range.mpr (by omega))

/-- C1 (amended): provided the index's document ids are distinct and the
tenant's `date_joinedAt` sort keys are duplicate-free (so no tie spans a
page boundary), a cleanup pass — paging by 500 in ascending key order with
the strictly-after cursor, asking the store per page which ids exist and
deleting the absent ones one at a time until a page comes back empty —
terminates and removes exactly the tenant's orphan documents, leaving every
other document untouched; every removed id belonged to a tenant document
whose id no longer exists in the store. -/
theorem cleanup_removes_exactly_orphans {Id : Type} [DecidableEq Id]
    (existing : Id → Bool) (tenant : String) (docs : List (IndexEntry Id))
    (hids : (docs.map fun d => d.id).Nodup)
    (hkeys : ((docs.filter fun d => decide (d.tenant = tenant)).map fun d => d.key).Nodup) :
    ∃ removed, cleanupMemberIndex existing tenant docs =
        some (docs.filter fun d => !(decide (d.tenant = tenant) && !existing d.id),
          removed) ∧
      ∀ id ∈ removed, (∃ d ∈ docs, d.id = id ∧ d.tenant = tenant) ∧
        existing id = false :=
  cleanupLoop_exact existing tenant (docs.length + 1) docs none hids hkeys
    (fun _ _ _ hf => by rw [afterCursor] at hf; cases hf)
    (Nat.lt_succ_of_le (List.length_filter_le _ _))

/-- C1 witness: three tenant documents with distinct keys, one of which
(id 2) no longer exists — cleanup removes exactly that one. -/
theorem cleanup_removes_exactly_orphans_witness :
    ∃ removed, cleanupMemberIndex (fun id : Nat => decide (id ≠ 2)) "t"
        [⟨1, "t", 1⟩, ⟨2, "t", 2⟩, ⟨3, "t", 3⟩] =
        some ([⟨1, "t", 1⟩, ⟨3, "t", 3⟩], removed) ∧
      ∀ id ∈ removed, (fun id : Nat => decide (id ≠ 2)) id = false := by
  obtain ⟨rem, h1, h2⟩ := cleanup_removes_exactly_orphans (fun id : Nat => decide (id ≠ 2))
    "t" [⟨1, "t", 1⟩, ⟨2, "t", 2⟩, ⟨3, "t", 3⟩] (by decide) (by decide)
  refine ⟨rem, ?_, fun id h => (h2 id h).2⟩
  rw [h1]
  rfl
